import Mathlib

set_option maxRecDepth 16384

/-!
A verification development for the Grok_CLI repository.

The Python modules under scrutiny are shallowly embedded as executable Lean
definitions:

* `grok_cli/session.py` — the TOON codec (`parse_toon`, `serialize_toon`,
  `estimate_toon_tokens`) and `compress_session`;
* `grok_cli/sandbox.py` — `check_path_allowed`;
* `grok_cli/tools.py` — `tool_read_file`, `tool_write_file`, `tool_edit_file`,
  `tool_list_files`, `execute_tool`;
* the tool-result handling step of `Agent.chat` in `grok_cli/agent.py`.

Python strings are Lean `String`s (sequences of unicode code points, as in
Python); the Python string methods used by the code are re-implemented below
on `List Char`.  Python's `str.strip`/`str.splitlines` act on all unicode
whitespace; the embedding models the ASCII whitespace and the documented
line-break code points, which cover every string the repository produces.
Python dicts are association lists (`alookup`/`dinsert` give the dict
read/write with the overwrite-in-place semantics); dict equality is
extensional equality of `alookup`.  Raised exceptions are `Except` errors.
The filesystem is an explicit finite map from canonicalised absolute paths
(component lists) to file contents, plus a set of directories; terminal
interaction (rich's `Prompt.ask`/`Confirm.ask`) is an oracle list of
responses, and the per-language content validators — external collaborators
invoked as subprocesses — are an abstract function parameter.
-/

/-! ## Python string primitives -/

/-- ASCII whitespace, the characters `str.strip()` removes on the strings this
repository handles (space, tab, LF, CR, VT, FF). -/
def isWS (c : Char) : Bool :=
  c = ' ' || c = '\t' || c = '\n' || c = '\x0d' || c.val = 11 || c.val = 12

/-- The line-break code points of `str.splitlines` (LF, CR, VT, FF, FS, GS,
RS, NEL, LINE SEPARATOR, PARAGRAPH SEPARATOR); CRLF is handled as one break
in `pySplitlinesCore`. -/
def isLB (c : Char) : Bool :=
  c = '\n' || c = '\x0d' || c.val = 11 || c.val = 12 || c.val = 28 ||
  c.val = 29 || c.val = 30 || c.val = 133 || c.val = 8232 || c.val = 8233

/-- `str.lstrip()` on a character list. -/
def pyLstripList (l : List Char) : List Char := l.dropWhile isWS

/-- `str.rstrip()` on a character list. -/
def pyRstripList (l : List Char) : List Char :=
  (l.reverse.dropWhile isWS).reverse

/-- `str.strip()` on a character list. -/
def pyStripList (l : List Char) : List Char := pyLstripList (pyRstripList l)

/-- `str.strip()`. -/
def pyStrip (s : String) : String := String.mk (pyStripList s.data)

/-- `str.rstrip()`. -/
def pyRstrip (s : String) : String := String.mk (pyRstripList s.data)

/-- `str.splitlines()` worker: `acc` holds the current line reversed; the
flag records that the previous character was a CR, so that an immediately
following LF is part of the same (already emitted) break. -/
def pySplitlinesCore : Bool → List Char → List Char → List (List Char)
  | _, [], acc => if acc.isEmpty then [] else [acc.reverse]
  | afterCR, c :: rest, acc =>
    if afterCR && c = '\n' then pySplitlinesCore false rest acc
    else if isLB c then acc.reverse :: pySplitlinesCore (c = '\x0d') rest []
    else pySplitlinesCore false rest (c :: acc)

/-- `str.splitlines()`. -/
def pySplitlines (s : String) : List String :=
  (pySplitlinesCore false s.data []).map String.mk

/-- Membership of a character in a character list (Python `c in s`). -/
def containsCharB : List Char → Char → Bool
  | [], _ => false
  | x :: xs, c => x = c || containsCharB xs c

/-- Python `c in s` for a single character `c`. -/
def pyContainsChar (s : String) (c : Char) : Bool := containsCharB s.data c

/-- Boolean list-prefix test (the scan of `str.startswith`, and of
`Path.relative_to` on path components). -/
def isPrefixOfB {α : Type} [DecidableEq α] : List α → List α → Bool
  | [], _ => true
  | _ :: _, [] => false
  | a :: as, b :: bs => a = b && isPrefixOfB as bs

/-- Python `s.startswith(p)`. -/
def pyStartsWith (s p : String) : Bool := isPrefixOfB p.data s.data

/-- Boolean contiguous-sublist test; `isInfixB [] l = true`, as for Python's
`"" in s`. -/
def isInfixB : List Char → List Char → Bool
  | pat, [] => pat.isEmpty
  | pat, c :: rest => isPrefixOfB pat (c :: rest) || isInfixB pat rest

/-- Python `sub in s` (substring containment). -/
def strContains (s sub : String) : Bool := isInfixB sub.data s.data

/-- Python `s.split(sep)` for a one-character separator, on character lists:
always returns at least one (possibly empty) piece. -/
def splitOnCharList (c : Char) : List Char → List (List Char)
  | [] => [[]]
  | x :: xs =>
    if x = c then [] :: splitOnCharList c xs
    else
      match splitOnCharList c xs with
      | [] => [[x]]
      | h :: t => (x :: h) :: t

/-- Python `s.split(sep)` for a one-character separator. -/
def pySplitChar (s : String) (c : Char) : List String :=
  (splitOnCharList c s.data).map String.mk

/-- Python `s.split(sep, 1)`: the text before the first `c` and the text
after it (only used when `c` occurs in `s`). -/
def pySplit1 (s : String) (c : Char) : String × String :=
  (String.mk (s.data.takeWhile (fun x => x ≠ c)),
   String.mk ((s.data.dropWhile (fun x => x ≠ c)).drop 1))

/-- `len(s.split())` worker; the fuel argument (always at least the list
length) only makes the recursion structural. -/
def wordCountF : Nat → List Char → Nat
  | 0, _ => 0
  | _, [] => 0
  | f + 1, c :: rest =>
    if isWS c then wordCountF f rest
    else 1 + wordCountF f (rest.dropWhile (fun x => ¬ isWS x))

/-- The number of whitespace-delimited words, `len(s.split())`. -/
def wordCount (l : List Char) : Nat := wordCountF l.length l

/-- `"sep".join(l)`. -/
def joinWith (sep : String) : List String → String
  | [] => ""
  | [x] => x
  | x :: y :: rest => x ++ sep ++ joinWith sep (y :: rest)

/-- Python `s.count(pat)` worker for a nonempty pattern `p :: ps`:
non-overlapping occurrences, scanning left to right (fuel-structural). -/
def pyCountAux (p : Char) (ps : List Char) : Nat → List Char → Nat
  | 0, _ => 0
  | _, [] => 0
  | f + 1, c :: rest =>
    if isPrefixOfB (p :: ps) (c :: rest) then
      1 + pyCountAux p ps f (rest.drop ps.length)
    else pyCountAux p ps f rest

/-- Python `s.count(pat)`; an empty pattern counts `len(s) + 1` occurrences. -/
def pyCount (s pat : String) : Nat :=
  match pat.data with
  | [] => s.length + 1
  | p :: ps => pyCountAux p ps s.data.length s.data

/-- Python `s.replace(old, new)` worker for a nonempty pattern
(fuel-structural). -/
def pyReplaceAux (p : Char) (ps : List Char) (new : List Char) :
    Nat → List Char → List Char
  | 0, l => l
  | _, [] => []
  | f + 1, c :: rest =>
    if isPrefixOfB (p :: ps) (c :: rest) then
      new ++ pyReplaceAux p ps new f (rest.drop ps.length)
    else c :: pyReplaceAux p ps new f rest

/-- Python `s.replace(old, new)`; replacing an empty pattern interleaves
`new` at every character position (`"abc".replace("", "X") = "XaXbXcX"`). -/
def pyReplace (s old new : String) : String :=
  match old.data with
  | [] => String.mk (new.data ++ (s.data.map (fun c => c :: new.data)).flatten)
  | p :: ps => String.mk (pyReplaceAux p ps new.data s.data.length s.data)

/-- Python `str.lower()` (ASCII case mapping, which covers the key texts the
compressor inspects). -/
def pyToLower (s : String) : String := String.mk (s.data.map Char.toLower)

/-- Lexicographic code-point order on character lists (how Python compares
strings). -/
def lexLe : List Char → List Char → Bool
  | [], _ => true
  | _ :: _, [] => false
  | a :: as, b :: bs => if a = b then lexLe as bs else decide (a < b)

/-- Python's `<=` on strings. -/
def strLeB (a b : String) : Bool := lexLe a.data b.data

/-- The order `sorted` uses, as a proposition. -/
def keyLe (a b : String) : Prop := strLeB a b = true

instance : DecidableRel keyLe := fun a b => by
  unfold keyLe; infer_instance

/-- Python `sorted` on a list of strings. -/
def sortStrs (l : List String) : List String := List.insertionSort keyLe l

/-! ## Association lists as Python dicts -/

/-- Dict read, `d.get(k)` / `d[k]`. -/
def alookup {κ α : Type} [DecidableEq κ] : List (κ × α) → κ → Option α
  | [], _ => Option.none
  | kv :: rest, k => if kv.1 = k then some kv.2 else alookup rest k

/-- Dict write `d[k] = v`: overwrite in place when the key is present
(Python dicts keep the original position), append otherwise. -/
def dinsert {κ α : Type} [DecidableEq κ] (d : List (κ × α)) (k : κ) (v : α) :
    List (κ × α) :=
  if (alookup d k).isSome then
    d.map (fun kv => if kv.1 = k then (k, v) else kv)
  else d ++ [(k, v)]

/-! ## The TOON codec (`grok_cli/session.py`) -/

/-- A session-record value: Python `str`, `list[str]` or `None`. -/
inductive PyVal where
  | str (s : String)
  | list (l : List String)
  | none
deriving DecidableEq, Repr

/-- The serialized text of one value: `",".join(...)` for a list, `str(value)`
for a scalar (`PyVal.none` entries are skipped before this point). -/
def valueStr : PyVal → String
  | PyVal.str s => s
  | PyVal.list l => joinWith "," l
  | PyVal.none => ""

/-- Python `value_str[i:i+120]` chunking worker (fuel-structural). -/
def chunks120F : Nat → List Char → List (List Char)
  | 0, _ => []
  | _, [] => []
  | f + 1, l => l.take 120 :: chunks120F f (l.drop 120)

/-- Python `value_str[i:i+120]` chunking, the `range(0, len, 120)` loop of
`serialize_toon`. -/
def chunks120 (l : List Char) : List (List Char) := chunks120F l.length l

/-- The output lines `serialize_toon` emits for one `key: value` entry:
`None` is skipped; a value longer than 120 characters or containing a newline
is split into a first line carrying the key and two-space-indented
continuation lines. -/
def entryLines (k : String) (v : PyVal) : List String :=
  match v with
  | PyVal.none => []
  | _ =>
    let vs := valueStr v
    if vs.length > 120 || pyContainsChar vs '\n' then
      let parts :=
        if ¬ pyContainsChar vs '\n' && vs.length > 120 then
          (chunks120 vs.data).map String.mk
        else pySplitChar vs '\n'
      (k ++ ": " ++ parts.headD "") :: parts.tail.map (fun part => "  " ++ part)
    else [k ++ ": " ++ vs]

/-- The `lines` list `serialize_toon` builds: keys in `sorted` order, each
entry's lines in turn. -/
def toonLines (data : List (String × PyVal)) : List String :=
  ((sortStrs (data.map Prod.fst)).map
    (fun k =>
      match alookup data k with
      | some v => entryLines k v
      | Option.none => [])).flatten

/-- `serialize_toon`: `"\n".join(lines) + "\n"`. -/
def serialize_toon (data : List (String × PyVal)) : String :=
  joinWith "\n" (toonLines data) ++ "\n"

/-- `estimate_toon_tokens`: `len(text.split()) + len(text) // 4`. -/
def estimate_toon_tokens (text : String) : Nat :=
  wordCount text.data + text.length / 4

/-- The list-versus-scalar decision of `parse_toon`: a comma and no newline
means a list (split on commas, elements stripped, empties dropped). -/
def parseValue (v : String) : PyVal :=
  if pyContainsChar v ',' && ¬ pyContainsChar v '\n' then
    PyVal.list (((pySplitChar v ',').map pyStrip).filter (fun e => e ≠ ""))
  else PyVal.str v

/-- Whether a line is a continuation line (starts with two spaces or a tab). -/
def isContLine (s : String) : Bool := pyStartsWith s "  " || pyStartsWith s "\t"

/-- The continuation-consuming inner `while` of `parse_toon`: the processed
continuation texts (two-space marker or one tab removed) and the remaining
lines. -/
def splitCont : List String → List String × List String
  | [] => ([], [])
  | l :: ls =>
    if isContLine l then
      let r := splitCont ls
      ((if pyStartsWith l "  " then l.drop 2 else l.drop 1) :: r.1, r.2)
    else ([], l :: ls)

theorem splitCont_snd_length_le (ls : List String) :
    (splitCont ls).2.length ≤ ls.length := by
  induction ls with
  | nil => simp [splitCont]
  | cons l ls ih =>
    simp only [splitCont]
    split
    · simpa using Nat.le_succ_of_le ih
    · simp

/-- The outer `while` of `parse_toon` over the preprocessed lines,
accumulating the dict (fuel-structural; each iteration consumes at least the
key line, so fuel `≥ length` suffices). -/
def parseEntriesF : Nat → List (String × PyVal) → List String → List (String × PyVal)
  | 0, acc, _ => acc
  | _, acc, [] => acc
  | f + 1, acc, line :: rest =>
    if pyContainsChar line ':' then
      let kv := pySplit1 line ':'
      let key := pyStrip kv.1
      let v0 := pyStrip kv.2
      let cr := splitCont rest
      let value := cr.1.foldl (fun v c => v ++ "\n" ++ c) v0
      parseEntriesF f (dinsert acc key (parseValue value)) cr.2
    else parseEntriesF f acc rest

/-- The outer `while` of `parse_toon`. -/
def parseEntries (acc : List (String × PyVal)) (lines : List String) :
    List (String × PyVal) :=
  parseEntriesF lines.length acc lines

/-- `parse_toon`: drop blank and `#` lines, right-strip the rest, then fold
the `key: value` grammar. -/
def parse_toon (text : String) : List (String × PyVal) :=
  parseEntries []
    (((pySplitlines text).filter
        (fun line => pyStrip line ≠ "" && ¬ pyStartsWith (pyStrip line) "#")).map
      pyRstrip)

example : parse_toon "goal: build CLI\ndecisions: Poetry,TOON,sandbox" =
    [("goal", PyVal.str "build CLI"),
     ("decisions", PyVal.list ["Poetry", "TOON", "sandbox"])] := by decide

example : serialize_toon
    [("goal", PyVal.str "build CLI"), ("decisions", PyVal.list ["Poetry", "TOON"])] =
    "decisions: Poetry,TOON\ngoal: build CLI\n" := by decide

/-! ## `compress_session` (`grok_cli/session.py`) -/

/-- The structural keys `compress_session` preserves verbatim.  In the source
this is a Python `set` literal, whose iteration order is unspecified; as each
key is written at most once into the fresh output dict, only the key set
matters for the resulting mapping. -/
def structuralKeys : List String := ["goal", "decisions", "cwd", "files_hash", "open"]

/-- `"api" in key.lower() or "secret" in key.lower() or "key" in key.lower()`. -/
def isCredentialKey (k : String) : Bool :=
  strContains (pyToLower k) "api" || strContains (pyToLower k) "secret" ||
  strContains (pyToLower k) "key"

/-- `key.startswith("turn_") and ("_user" in key or "_assistant" in key)`. -/
def isTurnKey (k : String) : Bool :=
  pyStartsWith k "turn_" && (strContains k "_user" || strContains k "_assistant")

/-- `compressed[k] = data[k]` for each key of `ks` present in `data`. -/
def insertFromData (data : List (String × PyVal)) (c : List (String × PyVal))
    (ks : List String) : List (String × PyVal) :=
  ks.foldl
    (fun c k =>
      match alookup data k with
      | some v => dinsert c k v
      | Option.none => c) c

/-- `compressed[k] = v` for each entry `(k, v)` of `data` satisfying `p`. -/
def insertMatching (p : String × PyVal → Bool) (data c : List (String × PyVal)) :
    List (String × PyVal) :=
  data.foldl (fun c kv => if p kv then dinsert c kv.1 kv.2 else c) c

/-- `sorted([k for k in data if k.startswith("turn_") and ...])`. -/
def turnKeys (data : List (String × PyVal)) : List String :=
  sortStrs ((data.map Prod.fst).filter isTurnKey)

/-- `turn_keys[-6:] if len(turn_keys) >= 6 else turn_keys`: the protected
most recent turn entries (both branches equal the last `min 6 len`). -/
def lastExchanges (tks : List String) : List String :=
  tks.drop (tks.length - 6)

/-- The timeline summary of one historical turn value:
`value[:50] + "..." if len(value) > 50 else value`, then
`.replace("\n", " ")`. -/
def summarize (v : String) : String :=
  pyReplace (if v.length > 50 then String.mk (v.data.take 50) ++ "..." else v)
    "\n" " "

/-- The `timeline_steps` list: historical (unprotected) string-valued turn
entries, summarized, in sorted key order. -/
def timelineSteps (data : List (String × PyVal)) (tks lastEx : List String) :
    List String :=
  (tks.filter (fun k => ¬ lastEx.contains k)).filterMap
    (fun k =>
      match alookup data k with
      | some (PyVal.str v) => some (summarize v)
      | _ => Option.none)

/-- Steps 1-5 of `compress_session`: build the compressed output mapping. -/
def compressedOf (data : List (String × PyVal)) : List (String × PyVal) :=
  let c1 := insertFromData data [] structuralKeys
  let c2 := insertMatching
    (fun kv => pyStartsWith kv.1 "files" || pyStartsWith kv.1 "diff") data c1
  let c3 := insertMatching
    (fun kv =>
      (match kv.2 with | PyVal.str _ => true | _ => false) && isCredentialKey kv.1)
    data c2
  let tks := turnKeys data
  let lastEx := lastExchanges tks
  let timeline := timelineSteps data tks lastEx
  let c4 := insertFromData data c3 lastEx
  let c5 := insertFromData data c4 ["last_user", "last_assistant"]
  if timeline.isEmpty then c5
  else dinsert c5 "history" (PyVal.list (timeline.drop (timeline.length - 15)))

/-- An apostrophe (the source's error message quotes a command with it). -/
def apos : String := String.singleton (Char.ofNat 39)

/-- The message of the `RuntimeError` raised when the compressed record still
exceeds the hard ceiling. -/
def compressFatalMsg (final_tokens : Nat) : String :=
  "Context too large even after compression (" ++ toString final_tokens ++
  " tokens > 20k limit). Start a new session with " ++ apos ++
  "grok resume --new" ++ apos ++ " or clear history."

/-- `compress_session(data, mode)`; the raised `RuntimeError` is the
`Except.error` case. -/
def compress_session (data : List (String × PyVal)) (mode : String) :
    Except String (List (String × PyVal)) :=
  let serialized := serialize_toon data
  let tokens := estimate_toon_tokens serialized
  if mode = "never" then Except.ok data
  else if mode = "smart" ∧ tokens < 12000 then Except.ok data
  else
    let compressed := compressedOf data
    let final_serialized := serialize_toon compressed
    let final_tokens := estimate_toon_tokens final_serialized
    if final_tokens > 20000 then Except.error (compressFatalMsg final_tokens)
    else Except.ok compressed

/-! ## The sandbox boundary guard (`grok_cli/sandbox.py`) -/

/-- The module-level sandbox state: the immutable launch directory, the
current directory (both canonicalised absolute paths, as component lists)
and the dangerous-mode flag. -/
structure SandboxState where
  launch : List String
  current : List String
  dangerous : Bool
deriving DecidableEq, Repr

/-- A `pathlib` path: absolute flag plus components. -/
structure PyPath where
  absolute : Bool
  comps : List String
deriving DecidableEq, Repr

/-- One step of lexical canonicalisation: `"."` vanishes, `".."` pops (and at
the root stays at the root, as `"/.."` resolves to `"/"`). -/
def normStep (acc : List String) (c : String) : List String :=
  if c = "." then acc else if c = ".." then acc.dropLast else acc ++ [c]

/-- Canonicalise an absolute component list. -/
def resolveComps (l : List String) : List String := l.foldl normStep []

/-- `Path.resolve()` after `CURRENT_DIR / path` for relative paths.  The
filesystem of the embedding has no symlinks, so resolution is the lexical
canonicalisation of the absolute component list. -/
def resolvePath (st : SandboxState) (p : PyPath) : List String :=
  resolveComps (if p.absolute then p.comps else st.current ++ p.comps)

/-- `str()` of an absolute POSIX path. -/
def pathStr (comps : List String) : String := "/" ++ joinWith "/" comps

/-- The `PermissionError` message of `check_path_allowed`. -/
def sandboxViolationMsg (operation : String) (resolved launch : List String) :
    String :=
  "Cannot " ++ operation ++ " path outside launch directory: " ++
  pathStr resolved ++ "\nLaunch directory: " ++ pathStr launch ++
  "\nUse --dangerously-allow-entire-fs to disable sandbox"

/-- `check_path_allowed(path, operation)`: make the path absolute against the
current directory, resolve it, and unless dangerous mode is on require it to
be the launch directory or a descendant (`Path.relative_to` succeeds exactly
when the launch components are a prefix); the raised `PermissionError` is the
`Except.error` case. -/
def check_path_allowed (st : SandboxState) (p : PyPath) (operation : String) :
    Except String (List String) :=
  let resolved := resolvePath st p
  if st.dangerous then Except.ok resolved
  else if isPrefixOfB st.launch resolved then Except.ok resolved
  else Except.error (sandboxViolationMsg operation resolved st.launch)

/-! ## The tool-call execution core (`grok_cli/tools.py`)

The filesystem is explicit (files keyed by canonicalised absolute component
lists, plus a directory set); terminal prompts read from oracle lists
(`confirms` for `Confirm.ask`, `prompts` for `Prompt.ask`), raising the
`EOFError` a closed input stream gives when the oracle is exhausted; the
per-filetype validators — external subprocess-backed collaborators — are an
abstract `Validate` parameter; the rich console rendering (panels, diffs,
previews) has no effect on state or results and is elided. -/

/-- A raised Python exception, as `execute_tool` distinguishes them. -/
inductive PyExc where
  | permissionError (msg : String)
  | keyError (key : String)
  | eofError (msg : String)
  | osError (msg : String)
deriving DecidableEq, Repr

/-- Python `str(e)` (a `KeyError` renders as the quoted missing key). -/
def excStr : PyExc → String
  | PyExc.permissionError m => m
  | PyExc.keyError k => apos ++ k ++ apos
  | PyExc.eofError m => m
  | PyExc.osError m => m

/-- The tool-result dict: `{"success": True, "result": ...}`, the same with
the extra `"validation_errors"` key, or `{"success": False, "error": ...}`. -/
inductive ToolResult where
  | ok (result : String)
  | okV (result : String) (validation_errors : List String)
  | err (error : String)
deriving DecidableEq, Repr

/-- `validators.ValidationResult`. -/
structure ValidationResult where
  valid : Bool
  errors : List String
  warnings : List String
deriving DecidableEq, Repr

/-- `ValidationResult.has_errors`. -/
def hasErrors (v : ValidationResult) : Bool := v.errors.length > 0

/-- `ValidationResult.format_report`. -/
def formatReport (v : ValidationResult) : String :=
  joinWith "\n"
    ((if v.errors.isEmpty then []
      else "ERRORS:" :: v.errors.map (fun e => "  - " ++ e)) ++
     (if v.warnings.isEmpty then []
      else "WARNINGS:" :: v.warnings.map (fun w => "  - " ++ w)))

/-- The external validator capability, `validate_file(content, filename)`. -/
def Validate : Type := String → String → Option ValidationResult

/-- The filesystem: file contents keyed by canonicalised absolute paths, and
the set of directories. -/
structure FS where
  files : List (List String × String)
  dirs : List (List String)
deriving DecidableEq, Repr

def FS.isFile (fs : FS) (p : List String) : Bool := (alookup fs.files p).isSome

def FS.isDir (fs : FS) (p : List String) : Bool := fs.dirs.contains p

/-- `Path.exists()`. -/
def FS.pathExists (fs : FS) (p : List String) : Bool := fs.isFile p || fs.isDir p

/-- `Path.read_text()` on a file path. -/
def FS.readFile (fs : FS) (p : List String) : Option String := alookup fs.files p

/-- `Path.write_text(content)`. -/
def FS.writeFile (fs : FS) (p : List String) (content : String) : FS :=
  { fs with files := dinsert fs.files p content }

/-- `pathlib.Path(s)`: absolute when the text starts with `/`; empty and `.`
components vanish at construction. -/
def pathOfString (s : String) : PyPath :=
  { absolute := pyStartsWith s "/"
    comps := (pySplitChar s '/').filter (fun c => c ≠ "" && c ≠ ".") }

/-- The last component of a path text (`Path(s).name`). -/
def pathName (s : String) : String := (pathOfString s).comps.getLastD ""

/-- The index of the last occurrence of `c` (`str.rfind`). -/
def rfindC : List Char → Char → Option Nat
  | [], _ => Option.none
  | x :: xs, c =>
    match rfindC xs c with
    | some i => some (i + 1)
    | Option.none => if x = c then some 0 else Option.none

/-- `Path(s).suffix`: from the last dot of the name, when that dot is neither
first nor last. -/
def pathSuffix (s : String) : String :=
  let name := (pathName s).data
  match rfindC name '.' with
  | some i =>
    if 0 < i ∧ i < name.length - 1 then String.mk (name.drop i) else ""
  | Option.none => ""

/-- `check_path_allowed` with the raised `PermissionError` as a `PyExc`. -/
def checkPathExc (st : SandboxState) (p : PyPath) (operation : String) :
    Except PyExc (List String) :=
  match check_path_allowed st p operation with
  | Except.ok r => Except.ok r
  | Except.error m => Except.error (PyExc.permissionError m)

/-- `Confirm.ask` against the oracle; an exhausted oracle is the `EOFError`
of a closed input stream. -/
def confirmAsk : List Bool → Except PyExc (Bool × List Bool)
  | [] => Except.error (PyExc.eofError "EOF when reading a line")
  | b :: rest => Except.ok (b, rest)

/-- `Prompt.ask` with a choice list: empty input takes the default, an
invalid choice re-prompts. -/
def promptChoice (choices : List String) (dflt : String) :
    List String → Except PyExc (String × List String)
  | [] => Except.error (PyExc.eofError "EOF when reading a line")
  | s :: rest =>
    if s = "" then Except.ok (dflt, rest)
    else if choices.contains s then Except.ok (s, rest)
    else promptChoice choices dflt rest

/-- Free-form `Prompt.ask` with a default. -/
def promptAskD (dflt : String) : List String → Except PyExc (String × List String)
  | [] => Except.error (PyExc.eofError "EOF when reading a line")
  | s :: rest => Except.ok ((if s = "" then dflt else s), rest)

/-- `tool_read_file`. -/
def tool_read_file (st : SandboxState) (fs : FS) (path : String) :
    Except PyExc ToolResult :=
  match checkPathExc st (pathOfString path) "read" with
  | Except.error e => Except.error e
  | Except.ok abs_path =>
    if ¬ fs.pathExists abs_path then
      Except.ok (ToolResult.err ("File not found: " ++ path))
    else if ¬ fs.isFile abs_path then
      Except.ok (ToolResult.err ("Not a file: " ++ path))
    else
      -- read_text(); total here since the path is a regular file
      Except.ok (ToolResult.ok ((fs.readFile abs_path).getD ""))

/-- The success result of `tool_edit_file`: write the file, and report the
replacement count (with the validation report when issues were found). -/
def editFinish (fs : FS) (abs_path : List String) (path : String)
    (occurrences : Nat) (new_content : String)
    (validation : Option ValidationResult) : ToolResult × FS :=
  let fs2 := fs.writeFile abs_path new_content
  match validation with
  | some v =>
    if ¬ v.errors.isEmpty || ¬ v.warnings.isEmpty then
      (ToolResult.okV
        ("Edited " ++ path ++ " (" ++ toString occurrences ++
          " replacement(s)), but validation found issues:\n" ++ formatReport v)
        v.errors, fs2)
    else
      (ToolResult.ok
        ("Successfully edited " ++ path ++ " (" ++ toString occurrences ++
          " replacement(s))"), fs2)
  | Option.none =>
    (ToolResult.ok
      ("Successfully edited " ++ path ++ " (" ++ toString occurrences ++
        " replacement(s))"), fs2)

/-- `tool_edit_file`. -/
def tool_edit_file (validate : Validate) (st : SandboxState) (fs : FS)
    (path old_text new_text : String) (auto_confirm : Bool)
    (confirms : List Bool) : Except PyExc (ToolResult × FS) :=
  match checkPathExc st (pathOfString path) "edit" with
  | Except.error e => Except.error e
  | Except.ok abs_path =>
    if ¬ fs.pathExists abs_path then
      Except.ok (ToolResult.err ("File not found: " ++ path), fs)
    else
      match fs.readFile abs_path with
      | Option.none =>
        -- read_text() on a directory raises, caught by execute_tool
        Except.error (PyExc.osError ("[Errno 21] Is a directory: " ++ pathStr abs_path))
      | some content =>
        if ¬ strContains content old_text then
          Except.ok (ToolResult.err ("Text not found in " ++ path), fs)
        else
          let occurrences := pyCount content old_text
          let new_content := pyReplace content old_text new_text
          -- diff preview elided
          let validation := validate new_content path
          match validation with
          | some v =>
            if hasErrors v then
              if ¬ auto_confirm then
                match confirmAsk confirms with
                | Except.error e => Except.error e
                | Except.ok (b, _) =>
                  if ¬ b then
                    Except.ok
                      (ToolResult.err ("Validation failed:\n" ++ formatReport v), fs)
                  else Except.ok (editFinish fs abs_path path occurrences new_content validation)
              else Except.ok (editFinish fs abs_path path occurrences new_content validation)
            else if ¬ auto_confirm then
              match confirmAsk confirms with
              | Except.error e => Except.error e
              | Except.ok (b, _) =>
                if ¬ b then Except.ok (ToolResult.err "User cancelled", fs)
                else Except.ok (editFinish fs abs_path path occurrences new_content validation)
            else Except.ok (editFinish fs abs_path path occurrences new_content validation)
          | Option.none =>
            if ¬ auto_confirm then
              match confirmAsk confirms with
              | Except.error e => Except.error e
              | Except.ok (b, _) =>
                if ¬ b then Except.ok (ToolResult.err "User cancelled", fs)
                else Except.ok (editFinish fs abs_path path occurrences new_content validation)
            else Except.ok (editFinish fs abs_path path occurrences new_content validation)

/-- The outcome of `tool_write_file`'s confirmation loop. -/
inductive WriteDecision where
  | cancelled
  | proceed (current_path : String) (abs_path : List String)
      (validation : Option ValidationResult)
deriving Repr

/-- The `while True` confirmation loop of `tool_write_file` (choices
`y`/`n`/`e`, default `y`); fuel-structural, each iteration consuming at
least one oracle response. -/
def writeLoopF (validate : Validate) (st : SandboxState) (content path : String) :
    Nat → String → List String → Option ValidationResult → List String →
    Except PyExc WriteDecision
  | 0, _, _, _, _ => Except.error (PyExc.eofError "EOF when reading a line")
  | f + 1, current_path, abs_path, validation, prompts =>
    match promptChoice ["y", "n", "e"] "y" prompts with
    | Except.error e => Except.error e
    | Except.ok (choice, rest) =>
      if choice = "n" then Except.ok WriteDecision.cancelled
      else if choice = "e" then
        match promptAskD current_path rest with
        | Except.error e => Except.error e
        | Except.ok (raw, rest2) =>
          let new_name := pyStrip raw
          if new_name ≠ "" ∧ new_name ≠ current_path then
            match check_path_allowed st (pathOfString new_name) "write" with
            | Except.error _ =>
              -- invalid path printed; loop continues
              writeLoopF validate st content path f current_path abs_path validation rest2
            | Except.ok new_abs =>
              let validation2 :=
                if pathSuffix new_name ≠ pathSuffix path then validate content new_name
                else validation
              writeLoopF validate st content path f new_name new_abs validation2 rest2
          else writeLoopF validate st content path f current_path abs_path validation rest2
      else Except.ok (WriteDecision.proceed current_path abs_path validation)

/-- The success result of `tool_write_file`. -/
def writeFinish (fs : FS) (abs_path : List String) (current_path content : String)
    (validation : Option ValidationResult) : ToolResult × FS :=
  let fs2 := fs.writeFile abs_path content
  match validation with
  | some v =>
    if ¬ v.errors.isEmpty || ¬ v.warnings.isEmpty then
      (ToolResult.okV
        ("Wrote " ++ toString content.length ++ " bytes to " ++ current_path ++
          ", but validation found issues:\n" ++ formatReport v) v.errors, fs2)
    else
      (ToolResult.ok
        ("Successfully wrote " ++ toString content.length ++ " bytes to " ++
          current_path), fs2)
  | Option.none =>
    (ToolResult.ok
      ("Successfully wrote " ++ toString content.length ++ " bytes to " ++
        current_path), fs2)

/-- `tool_write_file` (display panels, previews and diffs elided; parent
directories are implicit in the filesystem model). -/
def tool_write_file (validate : Validate) (st : SandboxState) (fs : FS)
    (path content : String) (auto_confirm : Bool) (confirms : List Bool)
    (prompts : List String) : Except PyExc (ToolResult × FS) :=
  match check_path_allowed st (pathOfString path) "write" with
  | Except.error m =>
    -- this tool catches the sandbox PermissionError itself
    Except.ok (ToolResult.err m, fs)
  | Except.ok abs0 =>
    let validation0 := validate content path
    let dec : Except PyExc WriteDecision :=
      if ¬ auto_confirm then
        writeLoopF validate st content path prompts.length path abs0 validation0 prompts
      else Except.ok (WriteDecision.proceed path abs0 validation0)
    match dec with
    | Except.error e => Except.error e
    | Except.ok WriteDecision.cancelled => Except.ok (ToolResult.err "User cancelled", fs)
    | Except.ok (WriteDecision.proceed current_path absP validation) =>
      match validation with
      | some v =>
        if hasErrors v ∧ ¬ auto_confirm then
          match confirmAsk confirms with
          | Except.error e => Except.error e
          | Except.ok (b, _) =>
            if ¬ b then
              Except.ok (ToolResult.err ("Validation failed:\n" ++ formatReport v), fs)
            else Except.ok (writeFinish fs absP current_path content validation)
        else Except.ok (writeFinish fs absP current_path content validation)
      | Option.none => Except.ok (writeFinish fs absP current_path content validation)

/-- The entry names directly under a directory. -/
def FS.childNames (fs : FS) (p : List String) : List String :=
  ((fs.files.map Prod.fst ++ fs.dirs).filterMap
    (fun q =>
      if q.length = p.length + 1 && isPrefixOfB p q then q.getLast?
      else Option.none)).dedup

/-- The sort key order of `tool_list_files`: `(not is_dir, name.lower())`. -/
def listLeB (fs : FS) (p : List String) (a b : String) : Bool :=
  let da := fs.isDir (p ++ [a])
  let db := fs.isDir (p ++ [b])
  if da = db then strLeB (pyToLower a) (pyToLower b) else da

def listLe (fs : FS) (p : List String) (a b : String) : Prop :=
  listLeB fs p a b = true

instance (fs : FS) (p : List String) : DecidableRel (listLe fs p) :=
  fun a b => by unfold listLe; infer_instance

/-- `tool_list_files`. -/
def tool_list_files (st : SandboxState) (fs : FS) (path : String) :
    Except PyExc ToolResult :=
  match checkPathExc st (pathOfString path) "list" with
  | Except.error e => Except.error e
  | Except.ok abs_path =>
    if ¬ fs.pathExists abs_path then
      Except.ok (ToolResult.err ("Directory not found: " ++ path))
    else if ¬ fs.isDir abs_path then
      Except.ok (ToolResult.err ("Not a directory: " ++ path))
    else
      let entries := List.insertionSort (listLe fs abs_path) (fs.childNames abs_path)
      let items :=
        (entries.filter (fun name => ¬ pyStartsWith name ".")).map
          (fun name => if fs.isDir (abs_path ++ [name]) then name ++ "/" else name)
      Except.ok (ToolResult.ok
        (if items.isEmpty then "(empty directory)" else joinWith "\n" items))

/-- `arguments[k]`, raising `KeyError` when absent. -/
def getArg (args : List (String × String)) (k : String) : Except PyExc String :=
  match alookup args k with
  | some v => Except.ok v
  | Option.none => Except.error (PyExc.keyError k)

/-- `execute_tool(tool_name, arguments, auto_confirm)`: dispatch to the tool,
catching `PermissionError` as `"Permission denied: ..."` and every other
exception as its `str`. -/
def execute_tool (validate : Validate) (st : SandboxState) (fs : FS)
    (tool_name : String) (arguments : List (String × String))
    (auto_confirm : Bool) (confirms : List Bool) (prompts : List String) :
    ToolResult × FS :=
  let inner : Except PyExc (ToolResult × FS) :=
    if tool_name = "read_file" then
      match getArg arguments "path" with
      | Except.error e => Except.error e
      | Except.ok p =>
        match tool_read_file st fs p with
        | Except.error e => Except.error e
        | Except.ok r => Except.ok (r, fs)
    else if tool_name = "write_file" then
      match getArg arguments "path" with
      | Except.error e => Except.error e
      | Except.ok p =>
        match getArg arguments "content" with
        | Except.error e => Except.error e
        | Except.ok c => tool_write_file validate st fs p c auto_confirm confirms prompts
    else if tool_name = "edit_file" then
      match getArg arguments "path" with
      | Except.error e => Except.error e
      | Except.ok p =>
        match getArg arguments "old_text" with
        | Except.error e => Except.error e
        | Except.ok ot =>
          match getArg arguments "new_text" with
          | Except.error e => Except.error e
          | Except.ok nt => tool_edit_file validate st fs p ot nt auto_confirm confirms
    else if tool_name = "list_files" then
      match tool_list_files st fs ((alookup arguments "path").getD ".") with
      | Except.error e => Except.error e
      | Except.ok r => Except.ok (r, fs)
    else Except.ok (ToolResult.err ("Unknown tool: " ++ tool_name), fs)
  match inner with
  | Except.ok r => r
  | Except.error (PyExc.permissionError m) =>
    (ToolResult.err ("Permission denied: " ++ m), fs)
  | Except.error e => (ToolResult.err (excStr e), fs)

/-- The tool-turn content `Agent.chat` appends for one tool result:
`result["result"]` on success, `f"Error: {result['error']}"` on failure. -/
def agent_tool_content (r : ToolResult) : String :=
  match r with
  | ToolResult.ok s => s
  | ToolResult.okV s _ => s
  | ToolResult.err e => "Error: " ++ e

/-! ## Helper lemmas: dict reads through writes -/

theorem alookup_append_single_ne {κ α : Type} [DecidableEq κ]
    (d : List (κ × α)) (k k' : κ) (v : α) (h : k' ≠ k) :
    alookup (d ++ [(k, v)]) k' = alookup d k' := by
  induction d with
  | nil =>
    simp only [List.nil_append, alookup]
    rw [if_neg (fun hh : k = k' => h hh.symm)]
  | cons kv rest ih =>
    by_cases h2 : kv.1 = k'
    · simp [alookup, h2]
    · simp only [List.cons_append, alookup, h2, if_false]
      exact ih

theorem alookup_append_single_self {κ α : Type} [DecidableEq κ]
    (d : List (κ × α)) (k : κ) (v : α) (h : alookup d k = Option.none) :
    alookup (d ++ [(k, v)]) k = some v := by
  induction d with
  | nil => simp [alookup]
  | cons kv rest ih =>
    by_cases h2 : kv.1 = k
    · simp [alookup, h2] at h
    · simp only [alookup, h2, if_false] at h
      simp only [List.cons_append, alookup, h2, if_false]
      exact ih h

theorem alookup_map_replace_self {κ α : Type} [DecidableEq κ]
    (d : List (κ × α)) (k : κ) (v : α) (h : (alookup d k).isSome = true) :
    alookup (d.map (fun kv => if kv.1 = k then (k, v) else kv)) k = some v := by
  induction d with
  | nil => simp [alookup] at h
  | cons kv rest ih =>
    by_cases h2 : kv.1 = k
    · simp [alookup, h2]
    · simp only [alookup, h2, if_false] at h
      simp only [List.map_cons, if_neg h2, alookup, h2, if_false]
      exact ih h

theorem alookup_map_replace_ne {κ α : Type} [DecidableEq κ]
    (d : List (κ × α)) (k k' : κ) (v : α) (h : k' ≠ k) :
    alookup (d.map (fun kv => if kv.1 = k then (k, v) else kv)) k' = alookup d k' := by
  induction d with
  | nil => rfl
  | cons kv rest ih =>
    by_cases h2 : kv.1 = k
    · have e1 : (if kv.1 = k then (k, v) else kv) = (k, v) := if_pos h2
      rw [List.map_cons, e1]
      simp only [alookup]
      rw [if_neg (fun hh : k = k' => h hh.symm),
        if_neg (fun hh : kv.1 = k' => h ((h2.symm.trans hh).symm))]
      exact ih
    · have e1 : (if kv.1 = k then (k, v) else kv) = kv := if_neg h2
      rw [List.map_cons, e1]
      by_cases h3 : kv.1 = k'
      · simp [alookup, h3]
      · simp only [alookup, h3, if_false]
        exact ih

theorem alookup_dinsert_self {κ α : Type} [DecidableEq κ]
    (d : List (κ × α)) (k : κ) (v : α) : alookup (dinsert d k v) k = some v := by
  unfold dinsert
  split
  · exact alookup_map_replace_self d k v (by assumption)
  · rename_i h
    exact alookup_append_single_self d k v (Option.not_isSome_iff_eq_none.mp h)

theorem alookup_dinsert_ne {κ α : Type} [DecidableEq κ]
    (d : List (κ × α)) (k k' : κ) (v : α) (h : k' ≠ k) :
    alookup (dinsert d k v) k' = alookup d k' := by
  unfold dinsert
  split
  · exact alookup_map_replace_ne d k k' v h
  · exact alookup_append_single_ne d k k' v h

/-- Reading after a batch of `compressed[k] = data[k]` writes. -/
theorem alookup_insertFromData (data : List (String × PyVal)) (ks : List String)
    (c : List (String × PyVal)) (k : String) :
    alookup (insertFromData data c ks) k =
      if k ∈ ks ∧ (alookup data k).isSome then alookup data k
      else alookup c k := by
  induction ks generalizing c with
  | nil => simp [insertFromData]
  | cons k0 ks ih =>
    simp only [insertFromData, List.foldl_cons] at ih ⊢
    rw [ih]
    by_cases hmem : k ∈ ks ∧ (alookup data k).isSome
    · simp [hmem, List.mem_cons, hmem.1]
    · simp only [if_neg hmem]
      by_cases hk : k0 = k
      · subst hk
        cases hsome : alookup data k0 with
        | none => simp [hsome, hmem, alookup]
        | some v =>
          rw [alookup_dinsert_self]
          simp [hsome]
      · have hnot : ¬ (k ∈ k0 :: ks ∧ (alookup data k).isSome) := by
          intro hc
          rcases List.mem_cons.mp hc.1 with h1 | h1
          · exact hk h1.symm
          · exact hmem ⟨h1, hc.2⟩
        rw [if_neg hnot]
        cases hsome : alookup data k0 with
        | none => rfl
        | some v => exact alookup_dinsert_ne _ _ _ _ (fun he => hk he.symm)

/-- A key absent from the key list looks up to `none`. -/
theorem alookup_eq_none_of_not_mem {κ α : Type} [DecidableEq κ]
    (d : List (κ × α)) (k : κ) (h : k ∉ d.map Prod.fst) :
    alookup d k = Option.none := by
  induction d with
  | nil => rfl
  | cons kv rest ih =>
    simp only [List.map_cons, List.mem_cons, not_or] at h
    simp only [alookup]
    rw [if_neg (fun hh : kv.1 = k => h.1 hh.symm)]
    exact ih h.2

/-- Reading after the filtered per-entry writes, for a dict with distinct
keys. -/
theorem alookup_insertMatching (p : String × PyVal → Bool)
    (l : List (String × PyVal)) (c : List (String × PyVal)) (k : String)
    (hnd : (l.map Prod.fst).Nodup) :
    alookup (insertMatching p l c) k =
      match alookup l k with
      | some v => if p (k, v) then some v else alookup c k
      | Option.none => alookup c k := by
  induction l generalizing c with
  | nil => simp [insertMatching, alookup]
  | cons kv rest ih =>
    obtain ⟨k0, v0⟩ := kv
    simp only [List.map_cons, List.nodup_cons] at hnd
    simp only [insertMatching, List.foldl_cons] at ih ⊢
    by_cases hk : k0 = k
    · subst hk
      have hrest : alookup rest k0 = Option.none :=
        alookup_eq_none_of_not_mem rest k0 hnd.1
      rw [ih _ hnd.2, hrest]
      simp only [alookup, if_pos rfl]
      by_cases hp : p (k0, v0)
      · simp [hp, alookup_dinsert_self]
      · simp [hp]
    · simp only [alookup, hk, if_false]
      rw [ih _ hnd.2]
      by_cases hp : p (k0, v0)
      · simp only [hp, if_true]
        rw [alookup_dinsert_ne _ _ _ _ (fun he => hk he.symm)]
      · simp [hp]

/-! ## Claim C1: sandbox containment -/

/-- C1: with dangerous mode off, `check_path_allowed` accepts (returning the
canonicalized absolute path) every path that, once resolved against the
current directory and canonicalized, is the launch root or a descendant of
it, and rejects every other path — `..` traversal and absolute paths alike —
with a `PermissionError` whose message carries both the attempted path and
the root path. -/
theorem claim_C1_sandbox_containment (st : SandboxState) (p : PyPath)
    (operation : String) (hd : st.dangerous = false) :
    (isPrefixOfB st.launch (resolvePath st p) = true →
      check_path_allowed st p operation = Except.ok (resolvePath st p)) ∧
    (isPrefixOfB st.launch (resolvePath st p) = false →
      ∃ pre mid post,
        check_path_allowed st p operation =
          Except.error
            (pre ++ pathStr (resolvePath st p) ++ mid ++ pathStr st.launch ++ post)) := by
  constructor
  · intro h
    simp [check_path_allowed, hd, h]
  · intro h
    refine ⟨"Cannot " ++ operation ++ " path outside launch directory: ",
      "\nLaunch directory: ",
      "\nUse --dangerously-allow-entire-fs to disable sandbox", ?_⟩
    simp [check_path_allowed, hd, h, sandboxViolationMsg]

/-- C1 witness: in a sandbox rooted at `/root`, the relative path `sub/f`
resolves inside and is accepted; the traversal `../etc` resolves to `/etc`
and is rejected with the diagnostic message. -/
theorem claim_C1_sandbox_containment_witness :
    (SandboxState.mk ["root"] ["root"] false).dangerous = false ∧
    isPrefixOfB ["root"]
      (resolvePath (SandboxState.mk ["root"] ["root"] false)
        (PyPath.mk false ["sub", "f"])) = true ∧
    check_path_allowed (SandboxState.mk ["root"] ["root"] false)
      (PyPath.mk false ["sub", "f"]) "read" = Except.ok ["root", "sub", "f"] ∧
    isPrefixOfB ["root"]
      (resolvePath (SandboxState.mk ["root"] ["root"] false)
        (PyPath.mk false ["..", "etc"])) = false ∧
    ∃ pre mid post,
      check_path_allowed (SandboxState.mk ["root"] ["root"] false)
        (PyPath.mk false ["..", "etc"]) "read" =
        Except.error (pre ++ pathStr ["etc"] ++ mid ++ pathStr ["root"] ++ post) := by
  refine ⟨rfl, by decide, ?_, by decide, ?_⟩
  · exact (claim_C1_sandbox_containment _ _ _ rfl).1 (by decide)
  · exact (claim_C1_sandbox_containment
      (SandboxState.mk ["root"] ["root"] false) (PyPath.mk false ["..", "etc"])
      "read" rfl).2 (by decide)

/-! ## Claim C7: tool execution is total and tagged -/

/-- C7: for every tool name and argument mapping — unknown tools, missing
required arguments and in-tool exceptions included — `execute_tool` returns
exactly one tagged result, success with a string payload or failure with an
error message, and no exception escapes; a failure is fed back to the
conversation as a tool turn whose content is `"Error: "` followed by the
error text. -/
theorem claim_C7_execute_tool_total (validate : Validate) (st : SandboxState)
    (fs : FS) (tool_name : String) (arguments : List (String × String))
    (auto_confirm : Bool) (confirms : List Bool) (prompts : List String) :
    (∃ s, (execute_tool validate st fs tool_name arguments auto_confirm
        confirms prompts).1 = ToolResult.ok s) ∨
    (∃ s ve, (execute_tool validate st fs tool_name arguments auto_confirm
        confirms prompts).1 = ToolResult.okV s ve) ∨
    (∃ e, (execute_tool validate st fs tool_name arguments auto_confirm
        confirms prompts).1 = ToolResult.err e ∧
      agent_tool_content (execute_tool validate st fs tool_name arguments
        auto_confirm confirms prompts).1 = "Error: " ++ e) := by
  cases h : (execute_tool validate st fs tool_name arguments auto_confirm
      confirms prompts).1 with
  | ok s => exact Or.inl ⟨s, rfl⟩
  | okV s ve => exact Or.inr (Or.inl ⟨s, ve, rfl⟩)
  | err e => exact Or.inr (Or.inr ⟨e, rfl, rfl⟩)

/-! ## Claim C8: compression bypass modes -/

/-- C8: `compress_session` with mode `"never"` returns its input unchanged
for every input, and with mode `"smart"` returns the input unchanged
whenever the encoded size estimates strictly below the 12,000-token soft
trigger. -/
theorem claim_C8_compress_bypass (data : List (String × PyVal)) :
    compress_session data "never" = Except.ok data ∧
    (estimate_toon_tokens (serialize_toon data) < 12000 →
      compress_session data "smart" = Except.ok data) := by
  constructor
  · simp [compress_session]
  · intro h
    have h1 : ¬ (("smart" : String) = "never") := by decide
    simp [compress_session, h1, h]

/-- C8 witness at a small concrete record (estimated size far below the soft
trigger). -/
theorem claim_C8_compress_bypass_witness :
    estimate_toon_tokens (serialize_toon [("goal", PyVal.str "build CLI")]) < 12000 ∧
    compress_session [("goal", PyVal.str "build CLI")] "never" =
      Except.ok [("goal", PyVal.str "build CLI")] ∧
    compress_session [("goal", PyVal.str "build CLI")] "smart" =
      Except.ok [("goal", PyVal.str "build CLI")] := by
  refine ⟨by decide, (claim_C8_compress_bypass _).1, ?_⟩
  exact (claim_C8_compress_bypass [("goal", PyVal.str "build CLI")]).2 (by decide)

/-! ## Claim C9: long-value wrapping -/

theorem containsCharB_replicate (n : Nat) (c x : Char) (h : c ≠ x) :
    containsCharB (List.replicate n c) x = false := by
  induction n with
  | zero => rfl
  | succ n ih => simp [List.replicate_succ, containsCharB, h, ih]

theorem chunks120F_nil (f : Nat) : chunks120F f [] = [] := by
  cases f <;> rfl

theorem chunks120F_cons (f : Nat) (a : Char) (l : List Char) :
    chunks120F (f + 1) (a :: l) =
      (a :: l).take 120 :: chunks120F f ((a :: l).drop 120) := rfl

theorem chunks120_replicate_150 (c : Char) :
    chunks120 (List.replicate 150 c) =
      [List.replicate 120 c, List.replicate 30 c] := by
  unfold chunks120
  rw [List.length_replicate]
  rw [show List.replicate 150 c = c :: List.replicate 149 c by
    rw [← List.replicate_succ]]
  rw [show (150 : Nat) = 149 + 1 from rfl, chunks120F_cons]
  rw [show (c :: List.replicate 149 c) = List.replicate 150 c by
    rw [← List.replicate_succ]]
  rw [List.take_replicate, List.drop_replicate]
  norm_num
  rw [show List.replicate 30 c = c :: List.replicate 29 c by
    rw [← List.replicate_succ]]
  rw [show (149 : Nat) = 148 + 1 from rfl, chunks120F_cons]
  rw [show (c :: List.replicate 29 c) = List.replicate 30 c by
    rw [← List.replicate_succ]]
  rw [List.take_replicate, List.drop_replicate]
  norm_num
  exact chunks120F_nil _

theorem entryLines_replicate_150 (k : String) (c : Char) (h : c ≠ '\n') :
    entryLines k (PyVal.str (String.mk (List.replicate 150 c))) =
      [k ++ ": " ++ String.mk (List.replicate 120 c),
       "  " ++ String.mk (List.replicate 30 c)] := by
  have hnc : pyContainsChar (String.mk (List.replicate 150 c)) '\n' = false :=
    containsCharB_replicate 150 c '\n' h
  have hlen : (String.mk (List.replicate 150 c)).length = 150 := by
    simp [String.length]
  simp only [entryLines, valueStr]
  simp only [hlen, hnc]
  norm_num
  rw [chunks120_replicate_150]
  exact ⟨rfl, rfl⟩

theorem toonLines_single (k : String) (v : PyVal) :
    toonLines [(k, v)] = entryLines k v := by
  simp [toonLines, sortStrs, List.insertionSort, List.orderedInsert, alookup]

/-- C9: encoding a mapping with a single scalar value of 150 repeated
(non-newline) characters produces multiple output lines — the first starting
with the key followed by the first 120-character segment, the second
beginning with exactly two spaces followed by the remaining 30-character
segment — and the concatenation of the segments is the original value. -/
theorem claim_C9_long_value_wrapping (k : String) (c : Char) (h : c ≠ '\n') :
    toonLines [(k, PyVal.str (String.mk (List.replicate 150 c)))] =
      [k ++ ": " ++ String.mk (List.replicate 120 c),
       "  " ++ String.mk (List.replicate 30 c)] ∧
    String.mk (List.replicate 120 c) ++ String.mk (List.replicate 30 c) =
      String.mk (List.replicate 150 c) ∧
    serialize_toon [(k, PyVal.str (String.mk (List.replicate 150 c)))] =
      (k ++ ": " ++ String.mk (List.replicate 120 c)) ++ "\n" ++
        ("  " ++ String.mk (List.replicate 30 c)) ++ "\n" := by
  have hl := toonLines_single k (PyVal.str (String.mk (List.replicate 150 c)))
  rw [entryLines_replicate_150 k c h] at hl
  refine ⟨hl, ?_, ?_⟩
  · show String.mk (List.replicate 120 c ++ List.replicate 30 c) = _
    rw [← List.replicate_add]
  · unfold serialize_toon
    rw [hl]
    rfl

/-- C9 witness: the claim at the key `"k"` and the character `a`. -/
theorem claim_C9_long_value_wrapping_witness :
    toonLines [("k", PyVal.str (String.mk (List.replicate 150 'a')))] =
      ["k" ++ ": " ++ String.mk (List.replicate 120 'a'),
       "  " ++ String.mk (List.replicate 30 'a')] ∧
    String.mk (List.replicate 120 'a') ++ String.mk (List.replicate 30 'a') =
      String.mk (List.replicate 150 'a') ∧
    serialize_toon [("k", PyVal.str (String.mk (List.replicate 150 'a')))] =
      ("k" ++ ": " ++ String.mk (List.replicate 120 'a')) ++ "\n" ++
        ("  " ++ String.mk (List.replicate 30 'a')) ++ "\n" :=
  claim_C9_long_value_wrapping "k" 'a' (by decide)

/-! ## Claims C6 and C10: edit-tool semantics -/

/-- With auto-confirm on, a sandbox-approved path, an existing file and an
occurring `old_text`, `tool_edit_file` reaches the write step and returns the
`editFinish` result. -/
theorem tool_edit_file_success (validate : Validate) (st : SandboxState)
    (fs : FS) (path old new : String) (confirms : List Bool)
    (rp : List String) (content : String)
    (hchk : check_path_allowed st (pathOfString path) "edit" = Except.ok rp)
    (hread : alookup fs.files rp = some content)
    (hcont : strContains content old = true) :
    tool_edit_file validate st fs path old new true confirms =
      Except.ok (editFinish fs rp path (pyCount content old)
        (pyReplace content old new) (validate (pyReplace content old new) path)) := by
  unfold tool_edit_file
  simp only [checkPathExc, hchk]
  have hfile : fs.isFile rp = true := by simp [FS.isFile, hread]
  have hex : fs.pathExists rp = true := by simp [FS.pathExists, hfile]
  simp only [hex, FS.readFile, hread, hcont]
  cases hv : validate (pyReplace content old new) path with
  | none => simp [hv]
  | some v =>
    by_cases he : hasErrors v = true
    · simp [hv, he]
    · simp [hv, he]

/-- With a sandbox-approved path and an existing file, an absent `old_text`
makes `tool_edit_file` fail with the not-found error and leave the
filesystem untouched. -/
theorem tool_edit_file_not_found (validate : Validate) (st : SandboxState)
    (fs : FS) (path old new : String) (auto_confirm : Bool)
    (confirms : List Bool) (rp : List String) (content : String)
    (hchk : check_path_allowed st (pathOfString path) "edit" = Except.ok rp)
    (hread : alookup fs.files rp = some content)
    (hcont : strContains content old = false) :
    tool_edit_file validate st fs path old new auto_confirm confirms =
      Except.ok (ToolResult.err ("Text not found in " ++ path), fs) := by
  unfold tool_edit_file
  simp only [checkPathExc, hchk]
  have hfile : fs.isFile rp = true := by simp [FS.isFile, hread]
  have hex : fs.pathExists rp = true := by simp [FS.pathExists, hfile]
  simp only [hex, FS.readFile, hread, hcont]
  simp

theorem strContains_empty (s : String) : strContains s "" = true := by
  show isInfixB [] s.data = true
  cases s.data with
  | nil => rfl
  | cons c rest => rfl

/-- C6: on a file containing `"abcabc"`, editing with `old_text="abc"`,
`new_text="X"` under auto-confirm replaces every literal occurrence, leaving
`"XX"` on disk and reporting 2 replacements in the success result; and for
every file and every `old_text` absent from its content, the edit tool fails
with the not-found error and the filesystem is unchanged. -/
theorem claim_C6_edit_exact_match :
    (∀ (validate : Validate) (st : SandboxState) (fs : FS) (path : String)
        (confirms : List Bool) (rp : List String),
      check_path_allowed st (pathOfString path) "edit" = Except.ok rp →
      alookup fs.files rp = some "abcabc" →
      ∃ r, tool_edit_file validate st fs path "abc" "X" true confirms =
          Except.ok (r, FS.writeFile fs rp "XX") ∧
        alookup (FS.writeFile fs rp "XX").files rp = some "XX" ∧
        (r = ToolResult.ok
            ("Successfully edited " ++ path ++ " (" ++ "2" ++ " replacement(s))") ∨
         ∃ v, validate "XX" path = some v ∧
           r = ToolResult.okV
             ("Edited " ++ path ++ " (" ++ "2" ++
               " replacement(s)), but validation found issues:\n" ++ formatReport v)
             v.errors)) ∧
    (∀ (validate : Validate) (st : SandboxState) (fs : FS)
        (path old new : String) (auto_confirm : Bool) (confirms : List Bool)
        (rp : List String) (content : String),
      check_path_allowed st (pathOfString path) "edit" = Except.ok rp →
      alookup fs.files rp = some content →
      strContains content old = false →
      tool_edit_file validate st fs path old new auto_confirm confirms =
        Except.ok (ToolResult.err ("Text not found in " ++ path), fs)) := by
  constructor
  · intro validate st fs path confirms rp hchk hread
    have h := tool_edit_file_success validate st fs path "abc" "X" confirms rp
      "abcabc" hchk hread (by decide)
    have hrepl : pyReplace "abcabc" "abc" "X" = "XX" := by decide
    have hcount : pyCount "abcabc" "abc" = 2 := by decide
    rw [hrepl, hcount] at h
    cases hv : validate "XX" path with
    | none =>
      rw [h, hv]
      exact ⟨_, rfl, alookup_dinsert_self _ _ _, Or.inl rfl⟩
    | some v =>
      rw [h, hv]
      simp only [editFinish]
      split
      · exact ⟨_, rfl, alookup_dinsert_self _ _ _, Or.inr ⟨v, rfl, rfl⟩⟩
      · exact ⟨_, rfl, alookup_dinsert_self _ _ _, Or.inl rfl⟩
  · intro validate st fs path old new auto_confirm confirms rp content hchk hread hcont
    exact tool_edit_file_not_found validate st fs path old new auto_confirm
      confirms rp content hchk hread hcont

/-- C6 witness: a sandbox rooted at the filesystem root, a file `f.txt`
containing `"abcabc"`, a validator-free filetype; the replacing edit and a
not-found edit with `old_text="zzz"`. -/
theorem claim_C6_edit_exact_match_witness :
    (∃ r, tool_edit_file (fun _ _ => Option.none)
        (SandboxState.mk [] [] false)
        (FS.mk [(["f.txt"], "abcabc")] []) "f.txt" "abc" "X" true [] =
          Except.ok (r, FS.writeFile (FS.mk [(["f.txt"], "abcabc")] []) ["f.txt"] "XX") ∧
        alookup (FS.writeFile (FS.mk [(["f.txt"], "abcabc")] []) ["f.txt"] "XX").files
          ["f.txt"] = some "XX" ∧
        (r = ToolResult.ok
            ("Successfully edited " ++ "f.txt" ++ " (" ++ "2" ++ " replacement(s))") ∨
         ∃ v, (fun (_ _ : String) => (Option.none : Option ValidationResult)) "XX" "f.txt" = some v ∧
           r = ToolResult.okV
             ("Edited " ++ "f.txt" ++ " (" ++ "2" ++
               " replacement(s)), but validation found issues:\n" ++ formatReport v)
             v.errors)) ∧
    tool_edit_file (fun _ _ => Option.none) (SandboxState.mk [] [] false)
      (FS.mk [(["f.txt"], "abcabc")] []) "f.txt" "zzz" "Y" true [] =
      Except.ok (ToolResult.err ("Text not found in " ++ "f.txt"),
        FS.mk [(["f.txt"], "abcabc")] []) := by
  constructor
  · exact (claim_C6_edit_exact_match.1 (fun _ _ => Option.none)
      (SandboxState.mk [] [] false) (FS.mk [(["f.txt"], "abcabc")] [])
      "f.txt" [] ["f.txt"] rfl rfl)
  · exact (claim_C6_edit_exact_match.2 (fun _ _ => Option.none)
      (SandboxState.mk [] [] false) (FS.mk [(["f.txt"], "abcabc")] [])
      "f.txt" "zzz" "Y" true [] ["f.txt"] "abcabc" rfl rfl (by decide))

/-- C10: with auto-confirm on, editing an existing file with an empty
`old_text` never hits the not-found error: it succeeds, reports
`len(content) + 1` replacements, and rewrites the file to `new_text`
interleaved at every character position of the old content (`new_text`,
first char, `new_text`, second char, …, `new_text`); on an empty file the
result is exactly `new_text`. -/
theorem claim_C10_empty_old_text (validate : Validate) (st : SandboxState)
    (fs : FS) (path new : String) (confirms : List Bool) (rp : List String)
    (c : String)
    (hchk : check_path_allowed st (pathOfString path) "edit" = Except.ok rp)
    (hread : alookup fs.files rp = some c) :
    ∃ r, tool_edit_file validate st fs path "" new true confirms =
        Except.ok (r, FS.writeFile fs rp
          (String.mk (new.data ++ (c.data.map (fun ch => ch :: new.data)).flatten))) ∧
      (r = ToolResult.ok ("Successfully edited " ++ path ++ " (" ++
          toString (c.length + 1) ++ " replacement(s))") ∨
       ∃ v, validate
           (String.mk (new.data ++ (c.data.map (fun ch => ch :: new.data)).flatten))
           path = some v ∧
         r = ToolResult.okV ("Edited " ++ path ++ " (" ++ toString (c.length + 1) ++
           " replacement(s)), but validation found issues:\n" ++ formatReport v)
           v.errors) ∧
      (c = "" →
        String.mk (new.data ++ (c.data.map (fun ch => ch :: new.data)).flatten) = new) := by
  have h := tool_edit_file_success validate st fs path "" new confirms rp c
    hchk hread (strContains_empty c)
  have hrepl : pyReplace c "" new =
      String.mk (new.data ++ (c.data.map (fun ch => ch :: new.data)).flatten) := rfl
  have hcount : pyCount c "" = c.length + 1 := rfl
  rw [hrepl, hcount] at h
  have hempty : c = "" →
      String.mk (new.data ++ (c.data.map (fun ch => ch :: new.data)).flatten) = new := by
    intro hc
    subst hc
    simp
  cases hv : validate
      (String.mk (new.data ++ (c.data.map (fun ch => ch :: new.data)).flatten)) path with
  | none =>
    rw [h, hv]
    exact ⟨_, rfl, Or.inl rfl, hempty⟩
  | some v =>
    rw [h, hv]
    simp only [editFinish]
    split
    · exact ⟨_, rfl, Or.inr ⟨v, rfl, rfl⟩, hempty⟩
    · exact ⟨_, rfl, Or.inl rfl, hempty⟩

/-- C10 witness: content `"ab"`, `new_text="X"` — the interleaving `"XaXbX"`
with 3 replacements reported; and the empty-file case giving exactly
`new_text`. -/
theorem claim_C10_empty_old_text_witness :
    (∃ r, tool_edit_file (fun _ _ => Option.none) (SandboxState.mk [] [] false)
        (FS.mk [(["f.txt"], "ab")] []) "f.txt" "" "X" true [] =
        Except.ok (r, FS.writeFile (FS.mk [(["f.txt"], "ab")] []) ["f.txt"]
          (String.mk ("X".data ++ (("ab" : String).data.map
            (fun ch => ch :: ("X" : String).data)).flatten))) ∧
      (r = ToolResult.ok ("Successfully edited " ++ "f.txt" ++ " (" ++
          toString (("ab" : String).length + 1) ++ " replacement(s))") ∨
       ∃ v, (fun (_ _ : String) => (Option.none : Option ValidationResult))
           (String.mk ("X".data ++ (("ab" : String).data.map
             (fun ch => ch :: ("X" : String).data)).flatten)) "f.txt" = some v ∧
         r = ToolResult.okV ("Edited " ++ "f.txt" ++ " (" ++
           toString (("ab" : String).length + 1) ++
           " replacement(s)), but validation found issues:\n" ++ formatReport v)
           v.errors) ∧
      (("ab" : String) = "" →
        String.mk ("X".data ++ (("ab" : String).data.map
          (fun ch => ch :: ("X" : String).data)).flatten) = "X")) ∧
    String.mk ("X".data ++ (("ab" : String).data.map
      (fun ch => ch :: ("X" : String).data)).flatten) = "XaXbX" := by
  refine ⟨?_, by decide⟩
  exact claim_C10_empty_old_text (fun _ _ => Option.none)
    (SandboxState.mk [] [] false) (FS.mk [(["f.txt"], "ab")] [])
    "f.txt" "X" [] ["f.txt"] "ab" rfl rfl

/-! ## Claim C4: compression hard-ceiling failure -/

/-- C4: in a compressing mode, whenever the compressed output re-encodes to
an estimate still above the 20,000-token hard ceiling, `compress_session`
raises the fatal `RuntimeError` telling the user to start a new session or
clear history, and never returns a mapping. -/
theorem claim_C4_hard_ceiling (data : List (String × PyVal)) (mode : String)
    (h1 : mode ≠ "never")
    (h2 : ¬ (mode = "smart" ∧ estimate_toon_tokens (serialize_toon data) < 12000))
    (h3 : estimate_toon_tokens (serialize_toon (compressedOf data)) > 20000) :
    compress_session data mode =
      Except.error (compressFatalMsg
        (estimate_toon_tokens (serialize_toon (compressedOf data)))) ∧
    ∀ out, compress_session data mode ≠ Except.ok out := by
  have he : compress_session data mode =
      Except.error (compressFatalMsg
        (estimate_toon_tokens (serialize_toon (compressedOf data)))) := by
    simp [compress_session, h1, h2, h3]
  refine ⟨he, fun out hc => ?_⟩
  rw [he] at hc
  exact Except.noConfusion hc

theorem chunks120F_replicate_mul (c : Char) (q : Nat) :
    ∀ f, 120 * q ≤ f →
      chunks120F f (List.replicate (120 * q) c) =
        List.replicate q (List.replicate 120 c) := by
  induction q with
  | zero => intro f _; simp [chunks120F_nil]
  | succ q ih =>
    intro f hf
    obtain ⟨f', rfl⟩ : ∃ f', f = f' + 1 := ⟨f - 1, by omega⟩
    obtain ⟨a, l, hl⟩ : ∃ a l, List.replicate (120 * (q + 1)) c = a :: l := by
      cases hrep : List.replicate (120 * (q + 1)) c with
      | nil =>
        have := congrArg List.length hrep
        simp at this
      | cons a l => exact ⟨a, l, rfl⟩
    rw [hl, chunks120F_cons, ← hl]
    rw [List.take_replicate, List.drop_replicate]
    rw [Nat.min_eq_left (by omega : (120 : Nat) ≤ 120 * (q + 1))]
    rw [show 120 * (q + 1) - 120 = 120 * q by ring_nf; omega]
    rw [ih f' (by omega)]
    exact (List.replicate_succ _ _).symm

/-- The crafted over-budget record: one protected `files`-prefixed entry of
81,000 characters. -/
def bigSessionRecord : List (String × PyVal) :=
  [("files", PyVal.str (String.mk (List.replicate 81000 'a')))]

theorem toonLines_bigSessionRecord :
    toonLines bigSessionRecord =
      ("files" ++ ": " ++ String.mk (List.replicate 120 'a')) ::
        List.replicate 674 ("  " ++ String.mk (List.replicate 120 'a')) := by
  show toonLines [("files", PyVal.str (String.mk (List.replicate 81000 'a')))] = _
  rw [toonLines_single]
  have hnc : pyContainsChar (String.mk (List.replicate 81000 'a')) '\n' = false :=
    containsCharB_replicate _ _ _ (by decide)
  have hlen : (String.mk (List.replicate 81000 'a')).length = 81000 := by
    show (List.replicate 81000 'a').length = 81000
    exact List.length_replicate ..
  simp only [entryLines, valueStr, hlen, hnc]
  norm_num
  have hch : chunks120 (List.replicate 81000 'a') =
      List.replicate 675 (List.replicate 120 'a') := by
    unfold chunks120
    rw [List.length_replicate]
    rw [show (81000 : Nat) = 120 * 675 by norm_num]
    exact chunks120F_replicate_mul 'a' 675 (120 * 675) le_rfl
  rw [hch, List.map_replicate]
  rw [show (675 : Nat) = 674 + 1 from rfl, List.replicate_succ]
  refine ⟨rfl, ?_⟩
  rw [List.replicate_succ, List.tail_cons]
  rfl

theorem joinWith_cons_replicate_length (sep h x : String) (n : Nat) :
    (joinWith sep (h :: List.replicate n x)).length =
      h.length + n * (sep.length + x.length) := by
  induction n generalizing h with
  | zero => simp [joinWith]
  | succ n ih =>
    rw [List.replicate_succ]
    rw [show joinWith sep (h :: x :: List.replicate n x) =
      h ++ sep ++ joinWith sep (x :: List.replicate n x) from rfl]
    rw [String.length_append, String.length_append]
    rw [ih x]
    ring

theorem serialize_bigSessionRecord_length :
    (serialize_toon bigSessionRecord).length = 83030 := by
  unfold serialize_toon
  rw [toonLines_bigSessionRecord]
  rw [String.length_append]
  rw [joinWith_cons_replicate_length]
  simp only [String.length_append]
  rw [show (String.mk (List.replicate 120 'a')).length = 120 from
    List.length_replicate ..]
  rw [show ("files" : String).length = 5 from rfl,
    show (": " : String).length = 2 from rfl,
    show ("\n" : String).length = 1 from rfl,
    show ("  " : String).length = 2 from rfl]

theorem div4_le_estimate (t : String) : t.length / 4 ≤ estimate_toon_tokens t :=
  Nat.le_add_left _ _

theorem estimate_bigSessionRecord_gt :
    estimate_toon_tokens (serialize_toon bigSessionRecord) > 20000 := by
  have h2 := div4_le_estimate (serialize_toon bigSessionRecord)
  rw [serialize_bigSessionRecord_length] at h2
  exact Nat.lt_of_lt_of_le (by norm_num) h2

/-- C4 witness: the crafted record compresses to itself (its single entry is
`files`-protected), still estimates above the hard ceiling, and
`compress_session` reports the fatal error rather than returning. -/
theorem claim_C4_hard_ceiling_witness :
    ("always" : String) ≠ "never" ∧
    ¬ (("always" : String) = "smart" ∧
        estimate_toon_tokens (serialize_toon bigSessionRecord) < 12000) ∧
    estimate_toon_tokens (serialize_toon (compressedOf bigSessionRecord)) > 20000 ∧
    compress_session bigSessionRecord "always" =
      Except.error (compressFatalMsg
        (estimate_toon_tokens (serialize_toon (compressedOf bigSessionRecord)))) ∧
    ∀ out, compress_session bigSessionRecord "always" ≠ Except.ok out := by
  have hcomp : compressedOf bigSessionRecord = bigSessionRecord := by
    show compressedOf [("files", PyVal.str (String.mk (List.replicate 81000 'a')))] = _
    rfl
  have hbig : estimate_toon_tokens (serialize_toon (compressedOf bigSessionRecord)) > 20000 := by
    rw [hcomp]
    exact estimate_bigSessionRecord_gt
  have h2 : ¬ (("always" : String) = "smart" ∧
      estimate_toon_tokens (serialize_toon bigSessionRecord) < 12000) := by
    intro hc
    exact absurd hc.1 (by decide)
  have h := claim_C4_hard_ceiling bigSessionRecord "always" (by decide) h2 hbig
  exact ⟨by decide, h2, hbig, h.1, h.2⟩

/-! ## Claims C3 and C5: forced-compression retention -/

theorem alookup_isSome_of_mem {κ α : Type} [DecidableEq κ]
    (d : List (κ × α)) (k : κ) (h : k ∈ d.map Prod.fst) :
    (alookup d k).isSome = true := by
  induction d with
  | nil => simp at h
  | cons kv rest ih =>
    by_cases hk : kv.1 = k
    · simp [alookup, hk]
    · simp only [List.map_cons, List.mem_cons] at h
      rcases h with h | h
      · exact absurd h.symm hk
      · simp only [alookup, hk, if_false]
        exact ih h

/-- Whether an optional value is a Python `str`. -/
def isStrVal : Option PyVal → Bool
  | some (PyVal.str _) => true
  | _ => false

/-- The keys `compress_session` carries over verbatim from `data`: structural
keys, `files`/`diff`-prefixed keys, string-valued credential-like keys, the
protected most recent turn entries, and `last_user`/`last_assistant` — when
present in `data`. -/
def preservedKey (data : List (String × PyVal)) (k : String) : Bool :=
  (structuralKeys.contains k ||
   (pyStartsWith k "files" || pyStartsWith k "diff") ||
   (isStrVal (alookup data k) && isCredentialKey k) ||
   (lastExchanges (turnKeys data)).contains k ||
   ["last_user", "last_assistant"].contains k) &&
  (alookup data k).isSome

/-- The output mapping of a forced compression, read at any key: the
reserved `history` entry when summaries were produced, the input's value at
every preserved key, nothing else. -/
theorem alookup_compressedOf (data : List (String × PyVal)) (k : String)
    (hnd : (data.map Prod.fst).Nodup) :
    alookup (compressedOf data) k =
      if k = "history" ∧
          ¬ (timelineSteps data (turnKeys data)
              (lastExchanges (turnKeys data))).isEmpty then
        some (PyVal.list
          ((timelineSteps data (turnKeys data) (lastExchanges (turnKeys data))).drop
            ((timelineSteps data (turnKeys data)
              (lastExchanges (turnKeys data))).length - 15)))
      else if preservedKey data k then alookup data k
      else Option.none := by
  have chain :
      alookup (insertFromData data
        (insertFromData data
          (insertMatching
            (fun kv =>
              (match kv.2 with | PyVal.str _ => true | _ => false) &&
                isCredentialKey kv.1)
            data
            (insertMatching
              (fun kv => pyStartsWith kv.1 "files" || pyStartsWith kv.1 "diff")
              data (insertFromData data [] structuralKeys)))
          (lastExchanges (turnKeys data)))
        ["last_user", "last_assistant"]) k =
      if preservedKey data k then alookup data k else Option.none := by
    rw [alookup_insertFromData, alookup_insertFromData,
      alookup_insertMatching _ _ _ _ hnd, alookup_insertMatching _ _ _ _ hnd,
      alookup_insertFromData]
    cases hdk : alookup data k with
    | none =>
      simp [preservedKey, hdk, alookup, isStrVal]
    | some v =>
      cases v with
      | str sv =>
        by_cases h1 : k ∈ (["last_user", "last_assistant"] : List String) <;>
        by_cases h2 : k ∈ lastExchanges (turnKeys data) <;>
        by_cases h3 : isCredentialKey k = true <;>
        by_cases h4 : pyStartsWith k "files" = true ∨ pyStartsWith k "diff" = true <;>
        by_cases h5 : k ∈ structuralKeys <;>
        simp_all [preservedKey, isStrVal, List.contains, List.elem_eq_mem, alookup]
      | list lv =>
        by_cases h1 : k ∈ (["last_user", "last_assistant"] : List String) <;>
        by_cases h2 : k ∈ lastExchanges (turnKeys data) <;>
        by_cases h4 : pyStartsWith k "files" = true ∨ pyStartsWith k "diff" = true <;>
        by_cases h5 : k ∈ structuralKeys <;>
        simp_all [preservedKey, isStrVal, List.contains, List.elem_eq_mem, alookup]
      | none =>
        by_cases h1 : k ∈ (["last_user", "last_assistant"] : List String) <;>
        by_cases h2 : k ∈ lastExchanges (turnKeys data) <;>
        by_cases h4 : pyStartsWith k "files" = true ∨ pyStartsWith k "diff" = true <;>
        by_cases h5 : k ∈ structuralKeys <;>
        simp_all [preservedKey, isStrVal, List.contains, List.elem_eq_mem, alookup]
  simp only [compressedOf]
  by_cases htl : (timelineSteps data (turnKeys data)
      (lastExchanges (turnKeys data))).isEmpty
  · rw [if_pos htl, if_neg (fun hc => hc.2 htl)]
    exact chain
  · rw [if_neg htl]
    by_cases hk : k = "history"
    · subst hk
      rw [alookup_dinsert_self, if_pos ⟨rfl, htl⟩]
    · rw [alookup_dinsert_ne _ _ _ _ hk, if_neg (fun hc => hk hc.1)]
      exact chain

/-- A successful compressing-mode run returns exactly the compressed
pipeline output. -/
theorem compress_ok_eq (data : List (String × PyVal)) (mode : String)
    (out : List (String × PyVal))
    (hmode : mode ≠ "never")
    (hsmart : ¬ (mode = "smart" ∧
      estimate_toon_tokens (serialize_toon data) < 12000))
    (hok : compress_session data mode = Except.ok out) :
    out = compressedOf data := by
  simp only [compress_session, if_neg hmode, if_neg hsmart] at hok
  by_cases hbig : estimate_toon_tokens (serialize_toon (compressedOf data)) > 20000
  · rw [if_pos hbig] at hok
    exact absurd hok (by simp)
  · rw [if_neg hbig] at hok
    exact (Except.ok.injEq _ _).mp hok |>.symm

/-- C3 (amended): in a compressing mode, every structural key, every
`files`/`diff`-prefixed key, and every credential-like key *whose value is a
string* that is present in the input is present in the output with its value
unchanged.  (The source's credential sweep tests `isinstance(value, str)`,
so non-string credential-like entries are not covered — see the
counterexample.) -/
theorem claim_C3_amended (data : List (String × PyVal)) (mode : String)
    (out : List (String × PyVal)) (k : String)
    (hnd : (data.map Prod.fst).Nodup)
    (hmode : mode ≠ "never")
    (hsmart : ¬ (mode = "smart" ∧
      estimate_toon_tokens (serialize_toon data) < 12000))
    (hok : compress_session data mode = Except.ok out) :
    (k ∈ structuralKeys → (alookup data k).isSome = true →
      alookup out k = alookup data k) ∧
    ((pyStartsWith k "files" || pyStartsWith k "diff") = true →
      (alookup data k).isSome = true → alookup out k = alookup data k) ∧
    (∀ s, isCredentialKey k = true → alookup data k = some (PyVal.str s) →
      alookup out k = some (PyVal.str s)) := by
  have hout : out = compressedOf data := compress_ok_eq data mode out hmode hsmart hok
  subst hout
  rw [alookup_compressedOf data k hnd]
  refine ⟨?_, ?_, ?_⟩
  · intro hs hsome
    have hne : ¬ (k = "history" ∧
        ¬ (timelineSteps data (turnKeys data)
            (lastExchanges (turnKeys data))).isEmpty) :=
      fun hc => absurd (hc.1 ▸ hs) (by decide)
    have hp : preservedKey data k = true := by
      simp [preservedKey, List.contains, List.elem_eq_mem, hs, hsome]
    rw [if_neg hne, if_pos hp]
  · intro hpre hsome
    have hne : ¬ (k = "history" ∧
        ¬ (timelineSteps data (turnKeys data)
            (lastExchanges (turnKeys data))).isEmpty) := by
      intro hc
      rw [hc.1] at hpre
      exact absurd hpre (by decide)
    have hp : preservedKey data k = true := by
      simp [preservedKey, List.contains, List.elem_eq_mem, hpre, hsome]
    rw [if_neg hne, if_pos hp]
  · intro s hcred hdk
    have hne : ¬ (k = "history" ∧
        ¬ (timelineSteps data (turnKeys data)
            (lastExchanges (turnKeys data))).isEmpty) := by
      intro hc
      rw [hc.1] at hcred
      exact absurd hcred (by decide)
    have hp : preservedKey data k = true := by
      simp [preservedKey, List.contains, List.elem_eq_mem, hcred, hdk, isStrVal]
    rw [if_neg hne, if_pos hp, hdk]

/-- C3 counterexample: the claim as stated fails for a credential-like key
with a non-string value.  `"apilist"` contains `"api"`, yet forced
compression of `{"apilist": ["a"]}` drops the entry entirely (the output is
the empty mapping), because the credential sweep only copies string
values. -/
theorem claim_C3_counterexample :
    isCredentialKey "apilist" = true ∧
    compress_session [("apilist", PyVal.list ["a"])] "always" =
      Except.ok ([] : List (String × PyVal)) := by
  exact ⟨by decide, rfl⟩

/-- The concrete record of the C3 witness. -/
def c3data : List (String × PyVal) :=
  [("goal", PyVal.str "g"), ("files.py", PyVal.str "F"), ("my_api", PyVal.str "s")]

/-- C3 witness: the amended claim applied to a record holding a structural
key, a `files`-prefixed key and a string-valued credential-like key, in mode
`"always"`. -/
theorem claim_C3_amended_witness :
    compress_session c3data "always" = Except.ok c3data ∧
    alookup c3data "goal" = some (PyVal.str "g") ∧
    alookup c3data "files.py" = some (PyVal.str "F") ∧
    alookup c3data "my_api" = some (PyVal.str "s") := by
  have hsmart : ¬ (("always" : String) = "smart" ∧
      estimate_toon_tokens (serialize_toon c3data) < 12000) :=
    fun hc => absurd hc.1 (by decide)
  have hok : compress_session c3data "always" = Except.ok c3data := rfl
  have h1 := (claim_C3_amended c3data "always" c3data "goal" (by decide)
    (by decide) hsmart hok).1 (by decide) (by decide)
  have h2 := (claim_C3_amended c3data "always" c3data "files.py" (by decide)
    (by decide) hsmart hok).2.1 (by decide) (by decide)
  have h3 := (claim_C3_amended c3data "always" c3data "my_api" (by decide)
    (by decide) hsmart hok).2.2 "s" (by decide) rfl
  exact ⟨hok, h1.trans (by rfl), h2.trans (by rfl), h3⟩

theorem mem_of_alookup {κ α : Type} [DecidableEq κ]
    (d : List (κ × α)) (k : κ) (v : α) (h : alookup d k = some v) : (k, v) ∈ d := by
  induction d with
  | nil => cases h
  | cons kv rest ih =>
    by_cases hk : kv.1 = k
    · simp only [alookup, hk, if_true, Option.some.injEq] at h
      subst h
      subst hk
      exact List.mem_cons_self _ _
    · simp only [alookup, hk, if_false] at h
      exact List.mem_cons_of_mem _ (ih h)

theorem filterMap_eq_map_of_forall {α β : Type} (f : α → Option β) (g : α → β)
    (l : List α) (h : ∀ x ∈ l, f x = some (g x)) : l.filterMap f = l.map g := by
  induction l with
  | nil => rfl
  | cons a l ih =>
    rw [List.filterMap_cons, h a (List.mem_cons_self a l), List.map_cons]
    rw [ih (fun x hx => h x (List.mem_cons_of_mem a hx))]

/-- The (string) value of `data` at `k`, for keys known to hold strings. -/
def strValueAt (data : List (String × PyVal)) (k : String) : String :=
  match alookup data k with
  | some (PyVal.str s) => s
  | _ => ""

theorem timelineSteps_eq_map (data : List (String × PyVal)) (tks lastEx : List String)
    (h : ∀ k ∈ tks.filter (fun k => ¬ lastEx.contains k),
      ∃ s, alookup data k = some (PyVal.str s)) :
    timelineSteps data tks lastEx =
      (tks.filter (fun k => ¬ lastEx.contains k)).map
        (fun k => summarize (strValueAt data k)) := by
  unfold timelineSteps
  apply filterMap_eq_map_of_forall
  intro x hx
  obtain ⟨s, hs⟩ := h x hx
  rw [hs]
  simp [strValueAt, hs]

theorem mem_turnKeys (data : List (String × PyVal)) (k : String) :
    k ∈ turnKeys data ↔ k ∈ (data.map Prod.fst).filter isTurnKey := by
  unfold turnKeys sortStrs
  exact (List.perm_insertionSort keyLe _).mem_iff

theorem isTurnKey_of_mem_turnKeys (data : List (String × PyVal)) (k : String)
    (h : k ∈ turnKeys data) : isTurnKey k = true :=
  (List.mem_filter.mp ((mem_turnKeys data k).mp h)).2

theorem mem_keys_of_mem_turnKeys (data : List (String × PyVal)) (k : String)
    (h : k ∈ turnKeys data) : k ∈ data.map Prod.fst :=
  (List.mem_filter.mp ((mem_turnKeys data k).mp h)).1

theorem pyStartsWith_head (s p : String) (c : Char) (hc : p.data.head? = some c)
    (hp : pyStartsWith s p = true) : s.data.head? = some c := by
  unfold pyStartsWith at hp
  cases hpd : p.data with
  | nil => rw [hpd] at hc; cases hc
  | cons pc pl =>
    rw [hpd] at hc hp
    cases hsd : s.data with
    | nil => rw [hsd] at hp; simp [isPrefixOfB] at hp
    | cons sc sl =>
      rw [hsd] at hp
      simp only [isPrefixOfB, Bool.and_eq_true, decide_eq_true_eq] at hp
      simp only [List.head?_cons, Option.some.injEq] at hc
      exact congrArg some (hp.1.symm.trans hc)

theorem turnKey_starts (k : String) (h : isTurnKey k = true) :
    pyStartsWith k "turn_" = true := by
  unfold isTurnKey at h
  rw [Bool.and_eq_true] at h
  exact h.1

theorem turnKey_not_files_diff (k : String) (h : isTurnKey k = true) :
    (pyStartsWith k "files" || pyStartsWith k "diff") = false := by
  have ht := pyStartsWith_head k "turn_" 't' (by decide) (turnKey_starts k h)
  cases hf : pyStartsWith k "files" with
  | true =>
    have hx := pyStartsWith_head k "files" 'f' (by decide) hf
    rw [ht] at hx
    exact absurd hx (by decide)
  | false =>
    cases hd : pyStartsWith k "diff" with
    | true =>
      have hx := pyStartsWith_head k "diff" 'd' (by decide) hd
      rw [ht] at hx
      exact absurd hx (by decide)
    | false => rfl

theorem structural_not_turnKey (k : String) (hs : k ∈ structuralKeys) :
    isTurnKey k = false := by
  simp only [structuralKeys, List.mem_cons, List.not_mem_nil, or_false] at hs
  rcases hs with rfl | rfl | rfl | rfl | rfl <;> decide

theorem lastkeys_not_turnKey (k : String)
    (hs : k ∈ (["last_user", "last_assistant"] : List String)) :
    isTurnKey k = false := by
  simp only [List.mem_cons, List.not_mem_nil, or_false] at hs
  rcases hs with rfl | rfl <;> decide

/-- C5 (amended): in a compressing mode, for a record whose turn-entries all
hold string values and whose turn-entry keys carry no credential-like
substring, every historical (unprotected) turn value is summarized —
newlines collapsed, truncated at 50 characters with an ellipsis — and the
summaries appear as the single list-valued `history` entry, keeping the most
recent 15 in chronological order; the protected (at most 6 most recent) turn
entries appear verbatim, and no other turn entry appears in the output.
(Without the two extra hypotheses the claim fails — see the
counterexample: non-string turn values are silently dropped from the
summary, and a credential-like turn key is also copied verbatim.) -/
theorem claim_C5_amended (data : List (String × PyVal)) (mode : String)
    (out : List (String × PyVal))
    (hnd : (data.map Prod.fst).Nodup)
    (hmode : mode ≠ "never")
    (hsmart : ¬ (mode = "smart" ∧
      estimate_toon_tokens (serialize_toon data) < 12000))
    (hturn : ∀ kv ∈ data, isTurnKey kv.1 = true →
      (∃ s, kv.2 = PyVal.str s) ∧ isCredentialKey kv.1 = false)
    (hok : compress_session data mode = Except.ok out) :
    ((turnKeys data).filter
        (fun k => ¬ (lastExchanges (turnKeys data)).contains k) ≠ [] →
      alookup out "history" = some (PyVal.list
        (((turnKeys data).filter
            (fun k => ¬ (lastExchanges (turnKeys data)).contains k)).map
              (fun k => summarize (strValueAt data k)) |>.drop
          ((((turnKeys data).filter
              (fun k => ¬ (lastExchanges (turnKeys data)).contains k)).map
                (fun k => summarize (strValueAt data k))).length - 15)))) ∧
    (∀ k ∈ lastExchanges (turnKeys data), alookup out k = alookup data k) ∧
    (∀ k, isTurnKey k = true → (alookup out k).isSome = true →
      k ∈ lastExchanges (turnKeys data)) := by
  have hout : out = compressedOf data := compress_ok_eq data mode out hmode hsmart hok
  subst hout
  have hstrval : ∀ k ∈ (turnKeys data).filter
      (fun k => ¬ (lastExchanges (turnKeys data)).contains k),
      ∃ s, alookup data k = some (PyVal.str s) := by
    intro k hk
    have hkT : k ∈ turnKeys data := (List.mem_filter.mp hk).1
    have hkd : k ∈ data.map Prod.fst := mem_keys_of_mem_turnKeys data k hkT
    have hsome := alookup_isSome_of_mem data k hkd
    obtain ⟨v, hv⟩ := Option.isSome_iff_exists.mp hsome
    obtain ⟨s, hs⟩ := (hturn (k, v) (mem_of_alookup data k v hv)
      (isTurnKey_of_mem_turnKeys data k hkT)).1
    refine ⟨s, ?_⟩
    rw [hv]
    exact congrArg some hs
  have hmap := timelineSteps_eq_map data (turnKeys data)
    (lastExchanges (turnKeys data)) hstrval
  refine ⟨?_, ?_, ?_⟩
  · intro hne
    have h_ne : ¬ (timelineSteps data (turnKeys data)
        (lastExchanges (turnKeys data))).isEmpty := by
      rw [hmap]
      simp only [List.isEmpty_iff, List.map_eq_nil_iff]
      exact hne
    rw [alookup_compressedOf data "history" hnd, if_pos ⟨rfl, h_ne⟩, hmap]
  · intro k hk
    have hTk : isTurnKey k = true :=
      isTurnKey_of_mem_turnKeys data k (List.drop_subset _ _ hk)
    have hne : ¬ (k = "history" ∧
        ¬ (timelineSteps data (turnKeys data)
            (lastExchanges (turnKeys data))).isEmpty) :=
      fun hc => absurd (hc.1 ▸ hTk) (by decide)
    have hsome : (alookup data k).isSome = true :=
      alookup_isSome_of_mem data k
        (mem_keys_of_mem_turnKeys data k (List.drop_subset _ _ hk))
    have hp : preservedKey data k = true := by
      simp [preservedKey, List.contains, List.elem_eq_mem, hk, hsome]
    rw [alookup_compressedOf data k hnd, if_neg hne, if_pos hp]
  · intro k hTk hsome_out
    rw [alookup_compressedOf data k hnd] at hsome_out
    have hne : ¬ (k = "history" ∧
        ¬ (timelineSteps data (turnKeys data)
            (lastExchanges (turnKeys data))).isEmpty) :=
      fun hc => absurd (hc.1 ▸ hTk) (by decide)
    rw [if_neg hne] at hsome_out
    by_cases hp : preservedKey data k = true
    · simp only [preservedKey, Bool.and_eq_true, Bool.or_eq_true] at hp
      obtain ⟨hdisj, hsome⟩ := hp
      rcases hdisj with (((hs | (hf | hd)) | hcred) | hlast) | hlu
      · have : isTurnKey k = false := structural_not_turnKey k (by
          simpa [List.contains, List.elem_eq_mem] using hs)
        rw [hTk] at this
        cases this
      · have hnfd := turnKey_not_files_diff k hTk
        rw [hf] at hnfd
        simp at hnfd
      · have hnfd := turnKey_not_files_diff k hTk
        rw [hd] at hnfd
        simp at hnfd
      · obtain ⟨v, hv⟩ := Option.isSome_iff_exists.mp hsome
        have hcf := (hturn (k, v) (mem_of_alookup data k v hv) hTk).2
        rw [hcred.2] at hcf
        cases hcf
      · simpa [List.contains, List.elem_eq_mem] using hlast
      · have : isTurnKey k = false := lastkeys_not_turnKey k (by
          simpa [List.contains, List.elem_eq_mem] using hlu)
        rw [hTk] at this
        cases this
    · rw [if_neg hp] at hsome_out
      cases hsome_out

/-- The C5 counterexample record: eight turn entries, of which the two
oldest are historical — one list-valued, one with a credential-like key. -/
def c5bad : List (String × PyVal) :=
  [("turn_000_user", PyVal.list ["a", "b"]),
   ("turn_001_user_api", PyVal.str "S"),
   ("turn_002_user", PyVal.str "c2"),
   ("turn_003_user", PyVal.str "c3"),
   ("turn_004_user", PyVal.str "c4"),
   ("turn_005_user", PyVal.str "c5"),
   ("turn_006_user", PyVal.str "c6"),
   ("turn_007_user", PyVal.str "c7")]

/-- C5 counterexample: the claim as stated fails on `c5bad` under mode
`"always"`.  Both `turn_000_user` and `turn_001_user_api` are historical
(only the last six turn entries are protected), yet the emitted `history`
list holds a single summary — the list-valued `turn_000_user` was not
summarized at all — and the historical `turn_001_user_api` additionally
appears verbatim in the output (its key contains `"api"`), so seven turn
entries appear verbatim, not at most six. -/
theorem claim_C5_counterexample :
    (turnKeys c5bad).length = 8 ∧
    isTurnKey "turn_000_user" = true ∧
    isTurnKey "turn_001_user_api" = true ∧
    ¬ ("turn_001_user_api" ∈ lastExchanges (turnKeys c5bad)) ∧
    compress_session c5bad "always" = Except.ok
      [("turn_001_user_api", PyVal.str "S"),
       ("turn_002_user", PyVal.str "c2"),
       ("turn_003_user", PyVal.str "c3"),
       ("turn_004_user", PyVal.str "c4"),
       ("turn_005_user", PyVal.str "c5"),
       ("turn_006_user", PyVal.str "c6"),
       ("turn_007_user", PyVal.str "c7"),
       ("history", PyVal.list ["S"])] := by
  refine ⟨by decide, by decide, by decide, by decide, ?_⟩
  rfl

/-- The C5 witness record: seven string-valued turn entries with plain turn
keys, so exactly one is historical. -/
def c5good : List (String × PyVal) :=
  [("turn_000_user", PyVal.str "old0"),
   ("turn_001_assistant", PyVal.str "c1"),
   ("turn_002_user", PyVal.str "c2"),
   ("turn_003_assistant", PyVal.str "c3"),
   ("turn_004_user", PyVal.str "c4"),
   ("turn_005_assistant", PyVal.str "c5"),
   ("turn_006_user", PyVal.str "c6")]

/-- C5 witness: the amended claim applied to `c5good` in mode `"always"`:
the single historical entry is summarized under `history`, the six
protected entries are kept verbatim, and turn entries in the output are
protected ones only. -/
theorem claim_C5_amended_witness :
    (turnKeys c5good).filter
      (fun k => ¬ (lastExchanges (turnKeys c5good)).contains k) = ["turn_000_user"] ∧
    compress_session c5good "always" = Except.ok
      [("turn_001_assistant", PyVal.str "c1"),
       ("turn_002_user", PyVal.str "c2"),
       ("turn_003_assistant", PyVal.str "c3"),
       ("turn_004_user", PyVal.str "c4"),
       ("turn_005_assistant", PyVal.str "c5"),
       ("turn_006_user", PyVal.str "c6"),
       ("history", PyVal.list ["old0"])] ∧
    alookup [("turn_001_assistant", PyVal.str "c1"),
       ("turn_002_user", PyVal.str "c2"),
       ("turn_003_assistant", PyVal.str "c3"),
       ("turn_004_user", PyVal.str "c4"),
       ("turn_005_assistant", PyVal.str "c5"),
       ("turn_006_user", PyVal.str "c6"),
       ("history", PyVal.list ["old0"])] "history" =
      some (PyVal.list ["old0"]) ∧
    alookup [("turn_001_assistant", PyVal.str "c1"),
       ("turn_002_user", PyVal.str "c2"),
       ("turn_003_assistant", PyVal.str "c3"),
       ("turn_004_user", PyVal.str "c4"),
       ("turn_005_assistant", PyVal.str "c5"),
       ("turn_006_user", PyVal.str "c6"),
       ("history", PyVal.list ["old0"])] "turn_006_user" = alookup c5good "turn_006_user" := by
  have hok : compress_session c5good "always" = Except.ok
      [("turn_001_assistant", PyVal.str "c1"),
       ("turn_002_user", PyVal.str "c2"),
       ("turn_003_assistant", PyVal.str "c3"),
       ("turn_004_user", PyVal.str "c4"),
       ("turn_005_assistant", PyVal.str "c5"),
       ("turn_006_user", PyVal.str "c6"),
       ("history", PyVal.list ["old0"])] := rfl
  have h := claim_C5_amended c5good "always" _ (by decide) (by decide)
    (fun hc => absurd hc.1 (by decide))
    (by
      intro kv hkv hTk
      refine ⟨?_, ?_⟩
      · fin_cases hkv <;> exact ⟨_, rfl⟩
      · fin_cases hkv <;> decide)
    hok
  refine ⟨by decide, hok, ?_, ?_⟩
  · have := h.1 (by decide)
    rw [this]
    rfl
  · exact h.2.1 "turn_006_user" (by decide)

/-! ## Claim C2: TOON round-trip -/

/-- A key text the encoding carries faithfully: nonempty, strip-stable, no
colon, no line-break character, not opening a comment. -/
def goodKey (k : String) : Bool :=
  k ≠ "" && pyStrip k == k && ¬ containsCharB k.data ':' &&
  k.data.all (fun c => ¬ isLB c) && ¬ pyStartsWith k "#"

/-- A scalar value the encoding carries faithfully: short enough not to be
wrapped, strip-stable, no comma (the list ambiguity), no line break. -/
def goodScalar (s : String) : Bool :=
  s.length ≤ 120 && s.data.all (fun c => ¬ isLB c) &&
  ¬ containsCharB s.data ',' && pyStrip s == s

/-- A list element the encoding carries faithfully. -/
def goodElem (e : String) : Bool :=
  e ≠ "" && e.data.all (fun c => ¬ isLB c) &&
  ¬ containsCharB e.data ',' && pyStrip e == e

/-- A list value the encoding carries faithfully: at least two elements (so
the decoded text holds a comma), short enough joined, faithful elements. -/
def goodListVal (l : List String) : Bool :=
  2 ≤ l.length && l.all goodElem && (joinWith "," l).length ≤ 120

/-- A value the encoding carries faithfully. -/
def goodVal : PyVal → Bool
  | PyVal.str s => goodScalar s
  | PyVal.list l => goodListVal l
  | PyVal.none => false

theorem containsCharB_append (a b : List Char) (c : Char) :
    containsCharB (a ++ b) c = (containsCharB a c || containsCharB b c) := by
  induction a with
  | nil => rfl
  | cons x xs ih => simp [containsCharB, ih, Bool.or_assoc]

theorem containsCharB_eq_false_of_all (l : List Char) (c : Char)
    (h : l.all (fun x => ¬ isLB x) = true) (hc : isLB c = true) :
    containsCharB l c = false := by
  induction l with
  | nil => rfl
  | cons x xs ih =>
    simp only [List.all_cons, Bool.and_eq_true, decide_eq_true_eq] at h
    have hx : ¬ (x = c) := fun he => h.1 (he ▸ hc)
    simp [containsCharB, hx, ih h.2]

theorem containsCharB_eq_false_iff (l : List Char) (c : Char) :
    containsCharB l c = false ↔ c ∉ l := by
  induction l with
  | nil => simp [containsCharB]
  | cons x xs ih =>
    simp only [containsCharB, Bool.or_eq_false_iff, decide_eq_false_iff_not,
      List.mem_cons, ih]
    constructor
    · rintro ⟨h1, h2⟩ (h | h)
      · exact h1 h.symm
      · exact h2 h
    · intro h
      exact ⟨fun he => h (Or.inl he.symm), fun he => h (Or.inr he)⟩

theorem dropWhile_length_le {α : Type} (p : α → Bool) (l : List α) :
    (l.dropWhile p).length ≤ l.length := by
  induction l with
  | nil => simp
  | cons x xs ih =>
    rw [List.dropWhile_cons]
    split
    · exact Nat.le_succ_of_le ih
    · simp

theorem pyRstripList_pref (l : List Char) : pyRstripList l <+: l := by
  unfold pyRstripList
  have h1 : l.reverse.dropWhile isWS <:+ l.reverse := List.dropWhile_suffix _
  have h2 := List.reverse_prefix.mpr h1
  rwa [List.reverse_reverse] at h2

theorem pyRstripList_length_le (l : List Char) :
    (pyRstripList l).length ≤ l.length := by
  have := (pyRstripList_pref l).length_le
  exact this

theorem pyStripList_length_le (l : List Char) :
    (pyStripList l).length ≤ l.length := by
  unfold pyStripList pyLstripList
  exact Nat.le_trans (dropWhile_length_le _ _) (pyRstripList_length_le l)

theorem pyLstripList_cons_of_head (c : Char) (t : List Char)
    (hc : isWS c = false) : pyLstripList (c :: t) = c :: t := by
  unfold pyLstripList
  rw [List.dropWhile_cons, hc]
  simp

theorem pyRstripList_eq_self_of_last (l : List Char) (c : Char)
    (hlast : l.getLast? = some c) (hc : isWS c = false) : pyRstripList l = l := by
  unfold pyRstripList
  cases hrev : l.reverse with
  | nil =>
    have : l = [] := by simpa using congrArg List.reverse hrev
    simp [this]
  | cons x xs =>
    have hx : x = c := by
      have h1 : l.reverse.head? = some c := by rw [List.head?_reverse, hlast]
      rw [hrev] at h1
      simpa using h1
    subst hx
    rw [List.dropWhile_cons, hc]
    simp only [Bool.false_eq_true, if_false]
    rw [← hrev, List.reverse_reverse]

theorem strip_stable_head (c : Char) (t : List Char)
    (h : pyStripList (c :: t) = c :: t) : isWS c = false := by
  by_contra hws
  rw [Bool.not_eq_false] at hws
  have hpre := pyRstripList_pref (c :: t)
  cases hr : pyRstripList (c :: t) with
  | nil =>
    unfold pyStripList at h
    rw [hr] at h
    cases h
  | cons x xs =>
    rw [hr] at hpre
    have hx : x = c := (List.cons_prefix_cons.mp hpre).1
    subst hx
    have hlen1 : (pyStripList (x :: t)).length ≤ xs.length := by
      unfold pyStripList
      rw [hr]
      unfold pyLstripList
      rw [List.dropWhile_cons, hws]
      simpa using dropWhile_length_le isWS xs
    have hlen2 : xs.length < (x :: t).length := by
      have := hpre.length_le
      simp at this ⊢
      omega
    rw [h] at hlen1
    omega

theorem strip_stable_last (l : List Char) (c : Char)
    (h : pyStripList l = l) (hlast : l.getLast? = some c) : isWS c = false := by
  by_contra hws
  rw [Bool.not_eq_false] at hws
  cases hrev : l.reverse with
  | nil =>
    have : l = [] := by simpa using congrArg List.reverse hrev
    rw [this] at hlast
    cases hlast
  | cons x xs =>
    have hx : x = c := by
      have h1 : l.reverse.head? = some c := by rw [List.head?_reverse, hlast]
      rw [hrev] at h1
      simpa using h1
    have hl : l.length = xs.length + 1 := by
      have := congrArg List.length hrev
      simpa using this
    have hlen1 : (pyRstripList l).length ≤ xs.length := by
      unfold pyRstripList
      rw [hrev, List.dropWhile_cons, hx, hws]
      simpa using dropWhile_length_le isWS xs
    have hlen2 : (pyStripList l).length ≤ xs.length := by
      unfold pyStripList pyLstripList
      exact Nat.le_trans (dropWhile_length_le _ _) hlen1
    rw [h] at hlen2
    omega

theorem pyRstripList_colon_space (l : List Char) :
    pyRstripList (l ++ [':', ' ']) = l ++ [':'] := by
  unfold pyRstripList
  rw [List.reverse_append]
  show (List.dropWhile isWS (' ' :: ':' :: l.reverse)).reverse = _
  rw [List.dropWhile_cons]
  norm_num [isWS]
  decide

theorem strip_stable_data (s : String) (h : pyStrip s = s) :
    pyStripList s.data = s.data :=
  congrArg String.data h

theorem pyStripList_space_cons (l : List Char) (h : pyStripList l = l) :
    pyStripList (' ' :: l) = l := by
  cases l with
  | nil => rfl
  | cons c t =>
    have hhead := strip_stable_head c t h
    cases hg : (c :: t).getLast? with
    | none => simp at hg
    | some x =>
      have hlast := strip_stable_last (c :: t) x h hg
      unfold pyStripList
      rw [pyRstripList_eq_self_of_last (' ' :: c :: t) x (by
        rw [List.getLast?_cons_cons]
        exact hg) hlast]
      unfold pyLstripList
      rw [List.dropWhile_cons]
      norm_num [isWS]
      simpa [isWS] using hhead

theorem joinWith_all (p : Char → Bool) (sep : String) (l : List String)
    (hsep : sep.data.all p = true) (h : ∀ e ∈ l, e.data.all p = true) :
    (joinWith sep l).data.all p = true := by
  induction l with
  | nil => rfl
  | cons x rest ih =>
    cases rest with
    | nil => exact h x (List.mem_cons_self _ _)
    | cons y t =>
      show ((x ++ sep ++ joinWith sep (y :: t)).data.all p) = true
      simp only [String.data_append, List.all_append, Bool.and_eq_true]
      exact ⟨⟨h x (List.mem_cons_self _ _), hsep⟩,
        ih (fun e he => h e (List.mem_cons_of_mem _ he))⟩

theorem joinWith_contains_comma (l : List String) (hlen : 2 ≤ l.length) :
    containsCharB (joinWith "," l).data ',' = true := by
  cases l with
  | nil => simp at hlen
  | cons x rest =>
    cases rest with
    | nil => simp at hlen
    | cons y t =>
      show containsCharB ((x ++ "," ++ joinWith "," (y :: t)).data) ',' = true
      simp only [String.data_append, containsCharB_append]
      have : containsCharB (",".data) ',' = true := by decide
      rw [this]
      simp

theorem splitOnCharList_no_sep (c : Char) (l : List Char)
    (h : containsCharB l c = false) : splitOnCharList c l = [l] := by
  induction l with
  | nil => rfl
  | cons x xs ih =>
    simp only [containsCharB, Bool.or_eq_false_iff, decide_eq_false_iff_not] at h
    unfold splitOnCharList
    rw [if_neg h.1, ih h.2]

theorem splitOnCharList_append_sep (c : Char) (a b : List Char)
    (ha : containsCharB a c = false) :
    splitOnCharList c (a ++ c :: b) = a :: splitOnCharList c b := by
  induction a with
  | nil =>
    show splitOnCharList c (c :: b) = [] :: splitOnCharList c b
    rw [splitOnCharList]
    rw [if_pos rfl]
  | cons x xs ih =>
    simp only [containsCharB, Bool.or_eq_false_iff, decide_eq_false_iff_not] at ha
    show splitOnCharList c (x :: (xs ++ c :: b)) = (x :: xs) :: splitOnCharList c b
    rw [splitOnCharList]
    rw [if_neg ha.1, ih ha.2]

theorem splitOnCharList_join (l : List String) (hne : l ≠ [])
    (h : ∀ e ∈ l, containsCharB e.data ',' = false) :
    splitOnCharList ',' (joinWith "," l).data = l.map String.data := by
  induction l with
  | nil => exact absurd rfl hne
  | cons x rest ih =>
    cases rest with
    | nil =>
      show splitOnCharList ',' x.data = [x.data]
      exact splitOnCharList_no_sep ',' x.data (h x (List.mem_cons_self _ _))
    | cons y t =>
      show splitOnCharList ',' ((x ++ "," ++ joinWith "," (y :: t)).data) = _
      have e1 : (x ++ "," ++ joinWith "," (y :: t)).data =
          x.data ++ ',' :: (joinWith "," (y :: t)).data := by
        simp [String.data_append]
      rw [e1, splitOnCharList_append_sep ',' _ _ (h x (List.mem_cons_self _ _))]
      rw [ih (by simp) (fun e he => h e (List.mem_cons_of_mem _ he))]
      rfl

theorem takeWhile_ne_append (c : Char) (a z : List Char)
    (ha : containsCharB a c = false) :
    (a ++ c :: z).takeWhile (fun x => x ≠ c) = a ∧
    (a ++ c :: z).dropWhile (fun x => x ≠ c) = c :: z := by
  induction a with
  | nil =>
    constructor
    · show (c :: z).takeWhile (fun x => x ≠ c) = []
      rw [List.takeWhile_cons]
      simp
    · show (c :: z).dropWhile (fun x => x ≠ c) = c :: z
      rw [List.dropWhile_cons]
      simp
  | cons x xs ih =>
    simp only [containsCharB, Bool.or_eq_false_iff, decide_eq_false_iff_not] at ha
    obtain ⟨ih1, ih2⟩ := ih ha.2
    constructor
    · show (x :: (xs ++ c :: z)).takeWhile (fun x => x ≠ c) = x :: xs
      simp only [List.takeWhile_cons, ne_eq, ha.1, not_false_eq_true]
      simpa using ih1
    · show (x :: (xs ++ c :: z)).dropWhile (fun x => x ≠ c) = c :: z
      simp only [List.dropWhile_cons, ne_eq, ha.1, not_false_eq_true]
      simpa using ih2

theorem goodKey_spec (k : String) (h : goodKey k = true) :
    k ≠ "" ∧ pyStrip k = k ∧ containsCharB k.data ':' = false ∧
    k.data.all (fun c => ¬ isLB c) = true ∧ pyStartsWith k "#" = false := by
  simp only [goodKey, Bool.and_eq_true, decide_eq_true_eq, beq_iff_eq,
    Bool.not_eq_true] at h ⊢
  tauto

theorem goodScalar_spec (s : String) (h : goodScalar s = true) :
    s.length ≤ 120 ∧ s.data.all (fun c => ¬ isLB c) = true ∧
    containsCharB s.data ',' = false ∧ pyStrip s = s := by
  simp only [goodScalar, Bool.and_eq_true, decide_eq_true_eq, beq_iff_eq,
    Bool.not_eq_true] at h ⊢
  tauto

theorem goodElem_spec (e : String) (h : goodElem e = true) :
    e ≠ "" ∧ e.data.all (fun c => ¬ isLB c) = true ∧
    containsCharB e.data ',' = false ∧ pyStrip e = e := by
  simp only [goodElem, Bool.and_eq_true, decide_eq_true_eq, beq_iff_eq,
    Bool.not_eq_true] at h ⊢
  tauto

theorem goodListVal_spec (l : List String) (h : goodListVal l = true) :
    2 ≤ l.length ∧ (∀ e ∈ l, goodElem e = true) ∧
    (joinWith "," l).length ≤ 120 := by
  simp only [goodListVal, Bool.and_eq_true, decide_eq_true_eq, List.all_eq_true]
    at h
  tauto

theorem strip_stable_of_edges (c : Char) (t : List Char) (d : Char)
    (hc : isWS c = false) (hd : (c :: t).getLast? = some d)
    (hwd : isWS d = false) : pyStripList (c :: t) = c :: t := by
  unfold pyStripList
  rw [pyRstripList_eq_self_of_last _ d hd hwd]
  exact pyLstripList_cons_of_head c t hc

theorem joinWith_comma_head (x : String) (rest : List String) (c : Char)
    (t : List Char) (hx : x.data = c :: t) :
    ∃ u, (joinWith "," (x :: rest)).data = c :: u := by
  cases rest with
  | nil => exact ⟨t, hx⟩
  | cons y ys =>
    refine ⟨t ++ (",".data ++ (joinWith "," (y :: ys)).data), ?_⟩
    show ((x ++ "," ++ joinWith "," (y :: ys)).data) = _
    simp [String.data_append, hx]

theorem joinWith_comma_last (l : List String) (hne : l ≠ [])
    (h : ∀ e ∈ l, e.data ≠ []) :
    ∃ e ∈ l, (joinWith "," l).data.getLast? = e.data.getLast? := by
  induction l with
  | nil => exact absurd rfl hne
  | cons x rest ih =>
    cases rest with
    | nil => exact ⟨x, List.mem_cons_self _ _, rfl⟩
    | cons y ys =>
      obtain ⟨e, he, heq⟩ :=
        ih (by simp) (fun e he => h e (List.mem_cons_of_mem _ he))
      refine ⟨e, List.mem_cons_of_mem _ he, ?_⟩
      have hes : (joinWith "," (y :: ys)).data.getLast?.isSome = true := by
        rw [heq]
        exact List.getLast?_isSome.mpr (h e (List.mem_cons_of_mem _ he))
      obtain ⟨d, hd⟩ := Option.isSome_iff_exists.mp hes
      show ((x ++ "," ++ joinWith "," (y :: ys)).data).getLast? = _
      simp only [String.data_append, List.append_assoc, List.getLast?_append]
      rw [hd]
      simp only [Option.or_some]
      rw [← hd]
      exact heq

theorem valueStr_noLB (v : PyVal) (hv : goodVal v = true) :
    (valueStr v).data.all (fun c => ¬ isLB c) = true := by
  cases v with
  | str s => exact (goodScalar_spec s hv).2.1
  | list l =>
    exact joinWith_all _ "," l (by decide)
      (fun e he => (goodElem_spec e ((goodListVal_spec l hv).2.1 e he)).2.1)
  | none => cases hv

theorem valueStr_len (v : PyVal) (hv : goodVal v = true) :
    (valueStr v).length ≤ 120 := by
  cases v with
  | str s => exact (goodScalar_spec s hv).1
  | list l => exact (goodListVal_spec l hv).2.2
  | none => cases hv

theorem valueStr_strip_stable (v : PyVal) (hv : goodVal v = true) :
    pyStrip (valueStr v) = valueStr v := by
  cases v with
  | str s => exact (goodScalar_spec s hv).2.2.2
  | list l =>
    obtain ⟨hlen, helem, _⟩ := goodListVal_spec l hv
    have hne : l ≠ [] := by
      intro h
      rw [h] at hlen
      simp at hlen
    obtain ⟨x, rest, hx⟩ : ∃ x rest, l = x :: rest := by
      cases l with
      | nil => exact absurd rfl hne
      | cons x rest => exact ⟨x, rest, rfl⟩
    have hxel := goodElem_spec x (helem x (hx ▸ List.mem_cons_self _ _))
    obtain ⟨c, t, hct⟩ : ∃ c t, x.data = c :: t := by
      cases hxd : x.data with
      | nil =>
        exact absurd (by
          have h0 : x = String.mk x.data := rfl
          rw [h0, hxd]) hxel.1
      | cons c t => exact ⟨c, t, rfl⟩
    have hchead : isWS c = false := by
      have hstab : pyStripList x.data = x.data := strip_stable_data x hxel.2.2.2
      rw [hct] at hstab
      exact strip_stable_head c t hstab
    obtain ⟨u, hu⟩ := joinWith_comma_head x rest c t hct
    obtain ⟨e, he, heq⟩ :=
      joinWith_comma_last l hne (fun e he =>
        fun hd => (goodElem_spec e (helem e he)).1 (by
          have h0 : e = String.mk e.data := rfl
          rw [h0, hd]))
    have hespec := goodElem_spec e (helem e he)
    have hesome : e.data.getLast?.isSome = true :=
      List.getLast?_isSome.mpr (fun hd => hespec.1 (by
        have h0 : e = String.mk e.data := rfl
        rw [h0, hd]))
    obtain ⟨d, hd⟩ := Option.isSome_iff_exists.mp hesome
    have hdws : isWS d = false :=
      strip_stable_last e.data d (strip_stable_data e hespec.2.2.2) hd
    have hlast : (joinWith "," l).data.getLast? = some d := by rw [heq, hd]
    show String.mk (pyStripList (joinWith "," l).data) = joinWith "," l
    rw [hx] at hlast ⊢
    rw [hu] at hlast ⊢
    rw [strip_stable_of_edges c u d hchead hlast hdws]
    rw [← hu]
  | none => cases hv

theorem pySplitlinesCore_line (l : List Char)
    (hl : l.all (fun c => ¬ isLB c) = true) (t acc : List Char) :
    pySplitlinesCore false (l ++ '\n' :: t) acc =
      (acc.reverse ++ l) :: pySplitlinesCore false t [] := by
  induction l generalizing acc with
  | nil =>
    show pySplitlinesCore false ('\n' :: t) acc = _
    rw [pySplitlinesCore]
    norm_num [show isLB '\n' = true from by decide,
      show ('\n' = '\x0d') = False from by decide]
  | cons x xs ih =>
    simp only [List.all_cons, Bool.and_eq_true, decide_eq_true_eq] at hl
    have hx : isLB x = false := by
      cases hb : isLB x
      · rfl
      · exact absurd hb hl.1
    show pySplitlinesCore false (x :: (xs ++ '\n' :: t)) acc = _
    rw [pySplitlinesCore]
    simp only [Bool.false_and, Bool.false_eq_true, if_false, hx]
    rw [ih hl.2]
    simp

theorem pySplitlines_join (L : List String) (hne : L ≠ [])
    (hL : ∀ s ∈ L, s.data.all (fun c => ¬ isLB c) = true) :
    pySplitlines (joinWith "\n" L ++ "\n") = L := by
  induction L with
  | nil => exact absurd rfl hne
  | cons s rest ih =>
    cases rest with
    | nil =>
      show pySplitlines (s ++ "\n") = [s]
      unfold pySplitlines
      have e : (s ++ "\n").data = s.data ++ '\n' :: [] := by
        simp [String.data_append]
      rw [e, pySplitlinesCore_line s.data (hL s (by simp)) [] []]
      simp [pySplitlinesCore]
    | cons y t =>
      unfold pySplitlines
      have e : ((joinWith "\n" (s :: y :: t)) ++ "\n").data =
          s.data ++ '\n' :: ((joinWith "\n" (y :: t)) ++ "\n").data := by
        show ((s ++ "\n" ++ joinWith "\n" (y :: t)) ++ "\n").data = _
        simp [String.data_append]
      rw [e, pySplitlinesCore_line s.data (hL s (by simp)) _ []]
      have ihh := ih (by simp) (fun u hu => hL u (List.mem_cons_of_mem _ hu))
      unfold pySplitlines at ihh
      simp only [List.reverse_nil, List.nil_append, List.map_cons]
      rw [ihh]

theorem pyRstripList_cons_of_head (c : Char) (t : List Char)
    (hc : isWS c = false) : pyRstripList (c :: t) = c :: pyRstripList t := by
  unfold pyRstripList
  rw [List.reverse_cons, List.dropWhile_append]
  by_cases h : (t.reverse.dropWhile isWS).isEmpty
  · rw [if_pos h, List.isEmpty_iff.mp h]
    rw [List.dropWhile_cons, hc]
    simp
  · rw [if_neg h, List.reverse_append]
    simp

theorem pyStripList_cons_of_head (c : Char) (t : List Char)
    (hc : isWS c = false) : pyStripList (c :: t) = c :: pyRstripList t := by
  unfold pyStripList
  rw [pyRstripList_cons_of_head c t hc]
  exact pyLstripList_cons_of_head c _ hc

/-- The raw text `serialize_toon` emits for a short, newline-free entry. -/
def rawLine (kv : String × PyVal) : String := kv.1 ++ ": " ++ valueStr kv.2

/-- The entry line after `parse_toon`'s right-strip: the trailing space of an
empty value is removed. -/
def procLine (kv : String × PyVal) : String :=
  if valueStr kv.2 = "" then kv.1 ++ ":" else kv.1 ++ ": " ++ valueStr kv.2

/-- The record `parse_toon (serialize_toon data)` reconstructs: the entries in
sorted-key order, each carrying its `alookup` value. -/
def sortedEntries (data : List (String × PyVal)) : List (String × PyVal) :=
  (sortStrs (data.map Prod.fst)).map
    (fun k => (k, (alookup data k).getD PyVal.none))

theorem rawLine_data (k : String) (v : PyVal) :
    (rawLine (k, v)).data = k.data ++ ':' :: ' ' :: (valueStr v).data := by
  show ((k ++ ": ") ++ valueStr v).data = _
  rw [String.data_append, String.data_append]
  have h2 : (": " : String).data = [':', ' '] := rfl
  rw [h2]
  simp

theorem procLine_data (k : String) (v : PyVal) :
    (procLine (k, v)).data =
      if valueStr v = "" then k.data ++ [':']
      else k.data ++ ':' :: ' ' :: (valueStr v).data := by
  unfold procLine
  split
  · rw [String.data_append]
  · exact rawLine_data k v

theorem data_cons_of_ne_empty (k : String) (h : k ≠ "") :
    ∃ c t, k.data = c :: t := by
  cases hd : k.data with
  | nil =>
    exact absurd (by
      have h0 : k = String.mk k.data := rfl
      rw [h0, hd]) h
  | cons c t => exact ⟨c, t, rfl⟩

theorem goodKey_head (k : String) (hk : goodKey k = true) :
    ∃ c t, k.data = c :: t ∧ isWS c = false ∧ c ≠ '#' ∧ c ≠ ' ' ∧ c ≠ '\t' := by
  have specs := goodKey_spec k hk
  obtain ⟨c, t, hct⟩ := data_cons_of_ne_empty k specs.1
  have hstab : pyStripList k.data = k.data := strip_stable_data k specs.2.1
  rw [hct] at hstab
  have hc := strip_stable_head c t hstab
  have hsp : c ≠ ' ' := fun he => by
    rw [he] at hc
    exact absurd hc (by decide)
  have htab : c ≠ '\t' := fun he => by
    rw [he] at hc
    exact absurd hc (by decide)
  have hhash : c ≠ '#' := by
    intro he
    have hp : pyStartsWith k "#" = true := by
      unfold pyStartsWith
      have hdd : ("#" : String).data = ['#'] := rfl
      rw [hdd, hct, ← he]
      simp [isPrefixOfB]
    rw [specs.2.2.2.2] at hp
    cases hp
  exact ⟨c, t, hct, hc, hhash, hsp, htab⟩

theorem rawLine_noLB (k : String) (v : PyVal) (hk : goodKey k = true)
    (hv : goodVal v = true) :
    (rawLine (k, v)).data.all (fun c => ¬ isLB c) = true := by
  rw [rawLine_data]
  simp only [List.all_append, List.all_cons, Bool.and_eq_true]
  exact ⟨(goodKey_spec k hk).2.2.2.1, by decide, by decide, valueStr_noLB v hv⟩

theorem rawLine_keep (k : String) (v : PyVal) (hk : goodKey k = true) :
    (pyStrip (rawLine (k, v)) ≠ "" &&
      ¬ pyStartsWith (pyStrip (rawLine (k, v))) "#") = true := by
  obtain ⟨c, t, hct, hc, hhash, _, _⟩ := goodKey_head k hk
  have hdata : (rawLine (k, v)).data =
      c :: (t ++ ':' :: ' ' :: (valueStr v).data) := by
    rw [rawLine_data, hct]
    simp
  have hstrip : pyStrip (rawLine (k, v)) =
      String.mk (c :: pyRstripList (t ++ ':' :: ' ' :: (valueStr v).data)) := by
    show String.mk (pyStripList (rawLine (k, v)).data) = _
    rw [hdata, pyStripList_cons_of_head c _ hc]
  rw [hstrip]
  have h1 : String.mk (c :: pyRstripList (t ++ ':' :: ' ' :: (valueStr v).data))
      ≠ "" := by
    intro h
    have h2 := congrArg String.data h
    rw [show ("" : String).data = [] from rfl] at h2
    cases h2
  have h2 : pyStartsWith
      (String.mk (c :: pyRstripList (t ++ ':' :: ' ' :: (valueStr v).data)))
      "#" = false := by
    unfold pyStartsWith
    have hdd : ("#" : String).data = ['#'] := rfl
    rw [hdd]
    show (decide ('#' = c) && isPrefixOfB [] _) = false
    rw [decide_eq_false (fun he => hhash he.symm)]
    simp
  simp [h1, h2]

theorem pyRstrip_rawLine (k : String) (v : PyVal) (hv : goodVal v = true) :
    pyRstrip (rawLine (k, v)) = procLine (k, v) := by
  by_cases hvs : valueStr v = ""
  · show String.mk (pyRstripList (rawLine (k, v)).data) = _
    rw [rawLine_data, hvs]
    show String.mk (pyRstripList (k.data ++ [':', ' '])) = _
    rw [pyRstripList_colon_space]
    unfold procLine
    rw [if_pos hvs]
    show String.mk (k.data ++ [':']) = String.mk ((k ++ ":").data)
    apply congrArg
    rw [String.data_append]
  · obtain ⟨e0, es, hes⟩ := data_cons_of_ne_empty (valueStr v) hvs
    obtain ⟨d, hd⟩ := Option.isSome_iff_exists.mp
      (List.getLast?_isSome.mpr (fun h0 : (valueStr v).data = [] => by
        rw [hes] at h0
        cases h0))
    have hwd : isWS d = false :=
      strip_stable_last (valueStr v).data d
        (strip_stable_data _ (valueStr_strip_stable v hv)) hd
    have hlast : (rawLine (k, v)).data.getLast? = some d := by
      rw [rawLine_data, hes]
      rw [hes] at hd
      rw [List.getLast?_append, List.getLast?_cons_cons,
        List.getLast?_cons_cons, hd]
      rfl
    have hself := pyRstripList_eq_self_of_last (rawLine (k, v)).data d hlast hwd
    show String.mk (pyRstripList (rawLine (k, v)).data) = _
    rw [hself]
    unfold procLine
    rw [if_neg hvs]
    rfl

theorem isContLine_eq_false_of_head (s : String) (c : Char) (t : List Char)
    (hs : s.data = c :: t) (hsp : c ≠ ' ') (htab : c ≠ '\t') :
    isContLine s = false := by
  have e1 : isPrefixOfB (("  " : String).data) s.data = false := by
    rw [hs]
    show (decide (' ' = c) && isPrefixOfB [' '] t) = false
    rw [decide_eq_false (fun he => hsp he.symm)]
    simp
  have e2 : isPrefixOfB (("\t" : String).data) s.data = false := by
    rw [hs]
    show (decide ('\t' = c) && isPrefixOfB [] t) = false
    rw [decide_eq_false (fun he => htab he.symm)]
    simp
  unfold isContLine pyStartsWith
  rw [e1, e2]
  rfl

theorem procLine_head (k : String) (v : PyVal) (c : Char) (t : List Char)
    (hk : k.data = c :: t) : ∃ u, (procLine (k, v)).data = c :: u := by
  by_cases hvs : valueStr v = ""
  · refine ⟨t ++ [':'], ?_⟩
    rw [procLine_data, if_pos hvs, hk]
    simp
  · refine ⟨t ++ ':' :: ' ' :: (valueStr v).data, ?_⟩
    rw [procLine_data, if_neg hvs, hk]
    simp

theorem splitCont_procLines (es : List (String × PyVal))
    (hgood : ∀ kv ∈ es, goodKey kv.1 = true) :
    splitCont (es.map procLine) = ([], es.map procLine) := by
  cases es with
  | nil => rfl
  | cons kv rest =>
    obtain ⟨c, t, hct, _, _, hsp, htab⟩ :=
      goodKey_head kv.1 (hgood kv (List.mem_cons_self _ _))
    obtain ⟨u, hu⟩ := procLine_head kv.1 kv.2 c t hct
    have hcont : isContLine (procLine kv) = false := by
      have h0 : procLine kv = procLine (kv.1, kv.2) := rfl
      rw [h0]
      exact isContLine_eq_false_of_head _ c u hu hsp htab
    show splitCont (procLine kv :: rest.map procLine) = _
    rw [splitCont, hcont]
    simp

theorem map_eq_id_of_forall {α : Type} (f : α → α) (l : List α)
    (h : ∀ a ∈ l, f a = a) : l.map f = l := by
  induction l with
  | nil => rfl
  | cons x xs ih =>
    rw [List.map_cons, h x (List.mem_cons_self _ _),
      ih (fun a ha => h a (List.mem_cons_of_mem _ ha))]

theorem parseValue_good (v : PyVal) (hv : goodVal v = true) :
    parseValue (valueStr v) = v := by
  cases v with
  | none => cases hv
  | str s =>
    have hs := goodScalar_spec s hv
    unfold parseValue
    rw [if_neg]
    · rfl
    · intro hcond
      rw [Bool.and_eq_true] at hcond
      have h1 : pyContainsChar (valueStr (PyVal.str s)) ',' = false := hs.2.2.1
      rw [h1] at hcond
      exact absurd hcond.1 (by decide)
  | list l =>
    obtain ⟨hlen, helem, _⟩ := goodListVal_spec l hv
    have hne : l ≠ [] := by
      intro h
      rw [h] at hlen
      simp at hlen
    have hcomma : containsCharB (joinWith "," l).data ',' = true :=
      joinWith_contains_comma l hlen
    have hnoLB : (joinWith "," l).data.all (fun c => ¬ isLB c) = true :=
      joinWith_all _ "," l (by decide)
        (fun e he => (goodElem_spec e (helem e he)).2.1)
    have hnl : containsCharB (joinWith "," l).data '\n' = false :=
      containsCharB_eq_false_of_all _ '\n' hnoLB (by decide)
    unfold parseValue
    rw [if_pos]
    · have hsplit : pySplitChar (valueStr (PyVal.list l)) ',' = l := by
        unfold pySplitChar
        rw [show (valueStr (PyVal.list l)).data = (joinWith "," l).data from rfl]
        rw [splitOnCharList_join l hne
          (fun e he => (goodElem_spec e (helem e he)).2.2.1)]
        rw [List.map_map]
        exact map_eq_id_of_forall _ l (fun a _ => rfl)
      rw [hsplit]
      rw [map_eq_id_of_forall pyStrip l
        (fun e he => (goodElem_spec e (helem e he)).2.2.2)]
      rw [List.filter_eq_self.mpr (fun e he => by
        simp [(goodElem_spec e (helem e he)).1])]
    · rw [Bool.and_eq_true]
      refine ⟨hcomma, ?_⟩
      have h1 : pyContainsChar (valueStr (PyVal.list l)) '\n' = false := hnl
      simp [h1]

theorem parse_procLine (k : String) (v : PyVal) (hk : goodKey k = true)
    (hv : goodVal v = true) :
    pyContainsChar (procLine (k, v)) ':' = true ∧
    pyStrip (pySplit1 (procLine (k, v)) ':').1 = k ∧
    pyStrip (pySplit1 (procLine (k, v)) ':').2 = valueStr v := by
  have hkspec := goodKey_spec k hk
  by_cases hvs : valueStr v = ""
  · have hdata : (procLine (k, v)).data = k.data ++ ':' :: [] := by
      rw [procLine_data, if_pos hvs]
    refine ⟨?_, ?_, ?_⟩
    · show containsCharB (procLine (k, v)).data ':' = true
      rw [hdata, containsCharB_append]
      simp [containsCharB]
    · show pyStrip
          (String.mk ((procLine (k, v)).data.takeWhile (fun x => x ≠ ':'))) = k
      rw [hdata, (takeWhile_ne_append ':' k.data [] hkspec.2.2.1).1]
      exact hkspec.2.1
    · show pyStrip (String.mk
          (((procLine (k, v)).data.dropWhile (fun x => x ≠ ':')).drop 1)) =
          valueStr v
      rw [hdata, (takeWhile_ne_append ':' k.data [] hkspec.2.2.1).2, hvs]
      rfl
  · have hdata : (procLine (k, v)).data =
        k.data ++ ':' :: ' ' :: (valueStr v).data := by
      rw [procLine_data, if_neg hvs]
    refine ⟨?_, ?_, ?_⟩
    · show containsCharB (procLine (k, v)).data ':' = true
      rw [hdata, containsCharB_append]
      simp [containsCharB]
    · show pyStrip
          (String.mk ((procLine (k, v)).data.takeWhile (fun x => x ≠ ':'))) = k
      rw [hdata, (takeWhile_ne_append ':' k.data _ hkspec.2.2.1).1]
      exact hkspec.2.1
    · show pyStrip (String.mk
          (((procLine (k, v)).data.dropWhile (fun x => x ≠ ':')).drop 1)) =
          valueStr v
      rw [hdata, (takeWhile_ne_append ':' k.data _ hkspec.2.2.1).2]
      show String.mk (pyStripList (' ' :: (valueStr v).data)) = valueStr v
      rw [pyStripList_space_cons _
        (strip_stable_data _ (valueStr_strip_stable v hv))]

theorem parseEntriesF_procLines (es : List (String × PyVal)) :
    ∀ (f : Nat) (acc : List (String × PyVal)),
      es.length ≤ f →
      (es.map Prod.fst).Nodup →
      (∀ kv ∈ es, goodKey kv.1 = true ∧ goodVal kv.2 = true) →
      (∀ kv ∈ es, alookup acc kv.1 = Option.none) →
      parseEntriesF f acc (es.map procLine) = acc ++ es := by
  induction es with
  | nil =>
    intro f acc _ _ _ _
    cases f with
    | zero => simp [parseEntriesF]
    | succ f => simp [parseEntriesF]
  | cons kv rest ih =>
    intro f acc hf hnd hgood hdis
    obtain ⟨k, v⟩ := kv
    cases f with
    | zero => exact absurd hf (by simp)
    | succ f =>
      simp only [List.map_cons, List.nodup_cons] at hnd
      have hkg := (hgood (k, v) (List.mem_cons_self _ _)).1
      have hvg := (hgood (k, v) (List.mem_cons_self _ _)).2
      obtain ⟨hcolon, hfst, hsnd⟩ := parse_procLine k v hkg hvg
      have hstep : parseEntriesF (f + 1) acc
          (((k, v) :: rest).map procLine) =
          if pyContainsChar (procLine (k, v)) ':' then
            parseEntriesF f
              (dinsert acc (pyStrip (pySplit1 (procLine (k, v)) ':').1)
                (parseValue ((splitCont (rest.map procLine)).1.foldl
                  (fun a c => a ++ "\n" ++ c)
                  (pyStrip (pySplit1 (procLine (k, v)) ':').2))))
              (splitCont (rest.map procLine)).2
          else parseEntriesF f acc (rest.map procLine) := rfl
      rw [hstep, if_pos hcolon]
      rw [splitCont_procLines rest
        (fun kv2 h2 => (hgood kv2 (List.mem_cons_of_mem _ h2)).1)]
      rw [hfst, hsnd]
      show parseEntriesF f (dinsert acc k (parseValue (valueStr v)))
          (rest.map procLine) = acc ++ (k, v) :: rest
      rw [parseValue_good v hvg]
      have hnone : alookup acc k = Option.none :=
        hdis (k, v) (List.mem_cons_self _ _)
      have hins : dinsert acc k v = acc ++ [(k, v)] := by
        unfold dinsert
        rw [hnone]
        simp
      rw [hins]
      rw [ih f (acc ++ [(k, v)]) (by simpa using Nat.le_of_succ_le_succ hf)
        hnd.2
        (fun kv2 h2 => hgood kv2 (List.mem_cons_of_mem _ h2))
        (fun kv2 h2 => by
          rw [alookup_append_single_ne acc k kv2.1 v
            (fun he => hnd.1 (he ▸ List.mem_map_of_mem Prod.fst h2))]
          exact hdis kv2 (List.mem_cons_of_mem _ h2))]
      simp

theorem flatten_map_singleton {α β : Type} (f : α → β) (l : List α) :
    (l.map (fun x => [f x])).flatten = l.map f := by
  induction l with
  | nil => rfl
  | cons x xs ih => simp [ih]

theorem entryLines_single (k : String) (v : PyVal) (hv : goodVal v = true) :
    entryLines k v = [rawLine (k, v)] := by
  have hlen : ¬ ((valueStr v).length > 120) := Nat.not_lt.mpr (valueStr_len v hv)
  have hnl : pyContainsChar (valueStr v) '\n' = false :=
    containsCharB_eq_false_of_all _ '\n' (valueStr_noLB v hv) (by decide)
  cases v with
  | none => cases hv
  | str s =>
    simp only [entryLines]
    simp [rawLine, hnl, hlen]
  | list l =>
    simp only [entryLines]
    simp [rawLine, hnl, hlen]

theorem toonLines_good (data : List (String × PyVal))
    (hgood : ∀ kv ∈ data, goodVal kv.2 = true) :
    toonLines data = (sortedEntries data).map rawLine := by
  unfold toonLines sortedEntries
  rw [List.map_map]
  rw [← flatten_map_singleton
    (rawLine ∘ fun k => (k, (alookup data k).getD PyVal.none))
    (sortStrs (data.map Prod.fst))]
  refine congrArg List.flatten (List.map_congr_left ?_)
  intro k hk
  have hk2 : k ∈ data.map Prod.fst :=
    (List.Perm.mem_iff (List.perm_insertionSort keyLe _)).mp hk
  obtain ⟨w, hw⟩ := Option.isSome_iff_exists.mp (alookup_isSome_of_mem data k hk2)
  have hmem := mem_of_alookup data k w hw
  simp only [Function.comp_apply]
  rw [hw]
  show entryLines k w = [rawLine (k, w)]
  exact entryLines_single k w (hgood (k, w) hmem)

theorem sortedEntries_keys (data : List (String × PyVal)) :
    (sortedEntries data).map Prod.fst = sortStrs (data.map Prod.fst) := by
  unfold sortedEntries
  rw [List.map_map]
  exact map_eq_id_of_forall _ _ (fun a _ => rfl)

theorem sortedEntries_good (data : List (String × PyVal))
    (hgood : ∀ kv ∈ data, goodKey kv.1 = true ∧ goodVal kv.2 = true) :
    ∀ kv ∈ sortedEntries data, goodKey kv.1 = true ∧ goodVal kv.2 = true := by
  intro kv hkv
  unfold sortedEntries at hkv
  rw [List.mem_map] at hkv
  obtain ⟨k, hk, hkveq⟩ := hkv
  have hk2 : k ∈ data.map Prod.fst :=
    (List.Perm.mem_iff (List.perm_insertionSort keyLe _)).mp hk
  obtain ⟨w, hw⟩ := Option.isSome_iff_exists.mp (alookup_isSome_of_mem data k hk2)
  have hmem := mem_of_alookup data k w hw
  rw [← hkveq, hw]
  exact hgood (k, w) hmem

theorem sortedEntries_nodup (data : List (String × PyVal))
    (hnd : (data.map Prod.fst).Nodup) :
    ((sortedEntries data).map Prod.fst).Nodup := by
  rw [sortedEntries_keys]
  exact ((List.perm_insertionSort keyLe _).nodup_iff).mpr hnd

theorem alookup_map_pair (ks : List String) (g : String → PyVal) (k : String) :
    alookup (ks.map (fun x => (x, g x))) k =
      if k ∈ ks then some (g k) else Option.none := by
  induction ks with
  | nil => simp [alookup]
  | cons x xs ih =>
    by_cases hx : x = k
    · subst hx
      simp [alookup]
    · rw [List.map_cons]
      show (if x = k then some (g x) else alookup (xs.map (fun x => (x, g x))) k)
          = _
      rw [if_neg hx, ih]
      by_cases hk : k ∈ xs
      · rw [if_pos hk, if_pos (List.mem_cons_of_mem _ hk)]
      · rw [if_neg hk, if_neg (fun h => by
          rcases List.mem_cons.mp h with h1 | h2
          · exact hx h1.symm
          · exact hk h2)]

theorem preprocess_rawLines (es : List (String × PyVal))
    (hgood : ∀ kv ∈ es, goodKey kv.1 = true ∧ goodVal kv.2 = true) :
    ((es.map rawLine).filter
        (fun line => pyStrip line ≠ "" &&
          ¬ pyStartsWith (pyStrip line) "#")).map pyRstrip =
      es.map procLine := by
  rw [List.filter_eq_self.mpr]
  · rw [List.map_map]
    exact List.map_congr_left (fun kv hkv => by
      show pyRstrip (rawLine kv) = procLine kv
      have h2 : rawLine kv = rawLine (kv.1, kv.2) := rfl
      have h3 : procLine kv = procLine (kv.1, kv.2) := rfl
      rw [h2, h3]
      exact pyRstrip_rawLine kv.1 kv.2 (hgood kv hkv).2)
  · intro line hline
    rw [List.mem_map] at hline
    obtain ⟨kv, hkv, hlineeq⟩ := hline
    rw [← hlineeq]
    have h2 : rawLine kv = rawLine (kv.1, kv.2) := rfl
    rw [h2]
    exact rawLine_keep kv.1 kv.2 (hgood kv hkv).1

theorem parse_serialize_good (data : List (String × PyVal))
    (hnd : (data.map Prod.fst).Nodup)
    (hgood : ∀ kv ∈ data, goodKey kv.1 = true ∧ goodVal kv.2 = true) :
    parse_toon (serialize_toon data) = sortedEntries data := by
  by_cases hdata : data = []
  · subst hdata
    rfl
  · have hsg := sortedEntries_good data hgood
    have hes_ne : sortedEntries data ≠ [] := by
      intro h
      apply hdata
      have h2 : sortStrs (data.map Prod.fst) = [] := by
        have h3 := congrArg (List.map (Prod.fst : String × PyVal → String)) h
        rw [sortedEntries_keys] at h3
        simpa using h3
      have h4 : List.Perm (sortStrs (data.map Prod.fst)) (data.map Prod.fst) :=
        List.perm_insertionSort keyLe (data.map Prod.fst)
      rw [h2] at h4
      exact List.map_eq_nil_iff.mp (h4.nil_eq).symm
    unfold serialize_toon
    rw [toonLines_good data (fun kv hkv => (hgood kv hkv).2)]
    unfold parse_toon
    rw [pySplitlines_join ((sortedEntries data).map rawLine)
      (fun h => hes_ne (List.map_eq_nil_iff.mp h))
      (fun s hs => by
        rw [List.mem_map] at hs
        obtain ⟨kv, hkv, heq⟩ := hs
        rw [← heq]
        have h2 : rawLine kv = rawLine (kv.1, kv.2) := rfl
        rw [h2]
        exact rawLine_noLB kv.1 kv.2 (hsg kv hkv).1 (hsg kv hkv).2)]
    rw [preprocess_rawLines (sortedEntries data) hsg]
    unfold parseEntries
    rw [List.length_map]
    rw [parseEntriesF_procLines (sortedEntries data) (sortedEntries data).length
      [] le_rfl (sortedEntries_nodup data hnd) hsg (fun kv _ => rfl)]
    simp

/-- Claim C2, counterexample to the unqualified round trip: the scalar value
`"a,b"` serializes to `k: a,b`, which `parse_toon` re-reads as the list
`["a", "b"]` — the scalar-versus-list typing is not preserved. -/
theorem claim_C2_counterexample :
    parse_toon (serialize_toon [("k", PyVal.str "a,b")]) =
      [("k", PyVal.list ["a", "b"])] ∧
    parse_toon (serialize_toon [("k", PyVal.str "a,b")]) ≠
      [("k", PyVal.str "a,b")] :=
  ⟨by decide, by decide⟩

/-- Claim C2 (amended): for a record with distinct keys whose keys are
nonempty, strip-stable, colon-free, line-break-free and not `#`-initial, and
whose values are either scalars that are at most 120 characters, comma-free,
line-break-free and strip-stable, or lists of at least two such nonempty
elements joining to at most 120 characters, `parse_toon (serialize_toon data)`
agrees with `data` on every key lookup (same keys, equal values, same
scalar-versus-list typing, same element order). -/
theorem claim_C2_roundtrip_amended (data : List (String × PyVal))
    (hnd : (data.map Prod.fst).Nodup)
    (hgood : ∀ kv ∈ data, goodKey kv.1 = true ∧ goodVal kv.2 = true)
    (k : String) :
    alookup (parse_toon (serialize_toon data)) k = alookup data k := by
  rw [parse_serialize_good data hnd hgood]
  unfold sortedEntries
  rw [alookup_map_pair]
  by_cases hk : k ∈ sortStrs (data.map Prod.fst)
  · rw [if_pos hk]
    have hk2 : k ∈ data.map Prod.fst :=
      (List.Perm.mem_iff (List.perm_insertionSort keyLe _)).mp hk
    obtain ⟨w, hw⟩ :=
      Option.isSome_iff_exists.mp (alookup_isSome_of_mem data k hk2)
    rw [hw]
    rfl
  · rw [if_neg hk]
    have hk2 : k ∉ data.map Prod.fst := fun h =>
      hk ((List.Perm.mem_iff (List.perm_insertionSort keyLe _)).mpr h)
    exact (alookup_eq_none_of_not_mem data k hk2).symm

/-- A concrete record satisfying the amended round-trip hypotheses. -/
def c2w : List (String × PyVal) :=
  [("decisions", PyVal.list ["Poetry", "TOON"]), ("goal", PyVal.str "build CLI")]

/-- Witness for C2: the amended round trip applied to `c2w`, with every
hypothesis checked by evaluation. -/
theorem claim_C2_roundtrip_amended_witness :
    ((c2w.map Prod.fst).Nodup ∧
      (∀ kv ∈ c2w, goodKey kv.1 = true ∧ goodVal kv.2 = true)) ∧
    alookup (parse_toon (serialize_toon c2w)) "goal" = alookup c2w "goal" :=
  ⟨⟨by decide, by decide⟩,
    claim_C2_roundtrip_amended c2w (by decide) (by decide) "goal"⟩
